import Mathlib

/-!
Verification development for the field-resolution and record-reconciliation
engine of the `automations` repository.  The definitions below are a shallow
embedding of `src/jobs/email_to_table.py`, `src/jobs/table_merger.py` and
`src/jobs/synonym_resolver.py`.  Python strings are Lean `String`s, Python
dicts are ordered association lists, and the places where the Python code
uses `re` are embedded through a small first-order regular-expression AST
together with a fuelled backtracking matcher whose alternation order, greedy
and lazy repetition and leftmost-search behaviour follow the `re` module.
Character classes are modelled over ASCII, matching the data this program
processes.
-/

/-- ASCII model of Python `\s` (also the set used by `str.strip`). -/
def pyIsSpace (c : Char) : Bool :=
  c == ' ' || c == '\t' || c == '\n' || c == '\r' || c == Char.ofNat 11 || c == Char.ofNat 12

/-- ASCII model of Python `\w` : letters, digits and underscore. -/
def pyIsWordChar (c : Char) : Bool :=
  c.isAlphanum || c == '_'

/-- Python `str.lower()` (ASCII). -/
def pyLower (s : String) : String :=
  String.mk (s.data.map Char.toLower)

/-- Python `str.upper()` (ASCII). -/
def pyUpper (s : String) : String :=
  String.mk (s.data.map Char.toUpper)

/-- Python `str.strip()` : drop leading and trailing whitespace. -/
def pyStrip (s : String) : String :=
  String.mk (((s.data.dropWhile pyIsSpace).reverse.dropWhile pyIsSpace).reverse)

/-- Python `str.strip(chars)` for an explicit character set. -/
def pyStripChars (cs : List Char) (s : String) : String :=
  String.mk (((s.data.dropWhile (cs.contains ·)).reverse.dropWhile (cs.contains ·)).reverse)

/-- Python substring containment `needle in haystack`. -/
def pyContains (haystack needle : String) : Bool :=
  (List.range (haystack.data.length + 1)).any
    (fun i => needle.data.isPrefixOf (haystack.data.drop i))

/-- Python `str.startswith`. -/
def pyStartsWith (s pre : String) : Bool :=
  pre.data.isPrefixOf s.data

/-- Python `str.isupper()` : at least one cased character and no lowercase one
(cased characters modelled as ASCII letters). -/
def pyIsUpper (s : String) : Bool :=
  let cased := s.data.filter (fun c => c.isAlpha)
  !cased.isEmpty && cased.all (fun c => c.isUpper)

/-- Python `str.split()` with no argument: split on whitespace runs,
dropping empty fields. -/
def pySplitWsGo : List Char → List Char → List String → List String
  | [], cur, acc =>
    (if cur.isEmpty then acc else String.mk cur.reverse :: acc)
  | c :: rest, cur, acc =>
    if pyIsSpace c then
      pySplitWsGo rest [] (if cur.isEmpty then acc else String.mk cur.reverse :: acc)
    else
      pySplitWsGo rest (c :: cur) acc

def pySplitWs (s : String) : List String :=
  (pySplitWsGo s.data [] []).reverse

/-- The single-quote character, used when rendering Python list values. -/
def squot : String := String.singleton (Char.ofNat 39)

/-- A value stored in an input-unit dict: a string, a list of strings
(`attachments`, `attachment_text`) or a list of flat rows (`excel_rows`). -/
inductive Val where
  | str (s : String)
  | strList (l : List String)
  | rows (r : List (List (String × String)))
deriving DecidableEq, Repr

/-- Python `str()` applied to a unit value (`repr`-style rendering of lists,
as `str` of a Python list shows). -/
def pyStr : Val → String
  | .str s => s
  | .strList l => "[" ++ String.intercalate ", " (l.map (fun s => squot ++ s ++ squot)) ++ "]"
  | .rows _ => "[\x7b...\x7d]"

/-- Python truthiness of a unit value. -/
def pyTruthy : Val → Bool
  | .str s => s ≠ ""
  | .strList l => !l.isEmpty
  | .rows r => !r.isEmpty

/-- An input unit: Python dict in insertion order. -/
abbrev EmailData := List (String × Val)

def edLookup (ed : EmailData) (k : String) : Option Val :=
  (ed.find? (fun e => e.1 == k)).map (·.2)

/-- `email_data.get(k, "")` read as a string. -/
def edGetS (ed : EmailData) (k : String) : String :=
  match edLookup ed k with
  | some v => pyStr v
  | none => ""

/-- `email_data.get(k, [])` read as a list of strings. -/
def edGetList (ed : EmailData) (k : String) : List String :=
  match edLookup ed k with
  | some (.strList l) => l
  | _ => []

/-- `email_data.get("excel_rows", [])` read as a list of rows. -/
def edGetRows (ed : EmailData) (k : String) : List (List (String × String)) :=
  match edLookup ed k with
  | some (.rows r) => r
  | _ => []

/-- Python dict assignment `d[k] = v`: replace in place if the key exists
(dict keys are unique, so only the first occurrence can matter), otherwise
append; insertion order is preserved. -/
def setk {α : Type} : List (String × α) → String → α → List (String × α)
  | [], k, v => [(k, v)]
  | e :: rest, k, v => if e.1 == k then (e.1, v) :: rest else e :: setk rest k v

def lookupk {α : Type} (d : List (String × α)) (k : String) : Option α :=
  (d.find? (fun e => e.1 == k)).map (·.2)

/-- Python `dict.update`: apply `setk` for each entry of the second dict. -/
def dictUpdate {α : Type} (d : List (String × α)) (upd : List (String × α)) :
    List (String × α) :=
  upd.foldl (fun acc e => setk acc e.1 e.2) d

/-- Keep the first occurrence of each element (`list(dict.fromkeys(...))` and
the `not in` accumulation patterns of the source). -/
def dedupFirstGo : List String → List String → List String
  | _, [] => []
  | seen, x :: rest =>
    if seen.contains x then dedupFirstGo seen rest
    else x :: dedupFirstGo (x :: seen) rest

def dedupFirst (l : List String) : List String :=
  dedupFirstGo [] l

-- ===================================================================
-- Regular-expression AST and matcher (embedding of the used `re` calls)
-- ===================================================================

/-- First-order character classes (IGNORECASE literals get their own
constructor, since the flag is baked in per call site). -/
inductive CC where
  | digit
  | wspace
  | wordc
  | anyc
  | ch (c : Char)
  | chCI (c : Char)
  | rng (lo hi : Char)
  | union (a b : CC)
  | compl (a : CC)
deriving DecidableEq, Repr

def ccMatch : CC → Char → Bool
  | .digit, c => c.isDigit
  | .wspace, c => pyIsSpace c
  | .wordc, c => pyIsWordChar c
  | .anyc, c => c != '\n'
  | .ch a, c => c == a
  | .chCI a, c => c.toLower == a.toLower
  | .rng lo hi, c => lo ≤ c && c ≤ hi
  | .union a b, c => ccMatch a c || ccMatch b c
  | .compl a, c => !(ccMatch a c)

def ccOneOf : List Char → CC
  | [] => .compl .anyc
  | [c] => .ch c
  | c :: rest => .union (.ch c) (ccOneOf rest)

/-- Regular expressions.  `rep lo hi lz r` is `r{lo,hi}` (`hi = none` means
unbounded), `lz = true` for lazy repetition.  `bow` is `\b`, `bolA`/`eolA`
are `^`/`$` (MULTILINE is a matcher flag), `nlb` is a one-character negative
lookbehind as in `(?<![A-Za-z])`. -/
inductive RE where
  | eps
  | cls (p : CC)
  | seq (a b : RE)
  | alt (a b : RE)
  | rep (lo : Nat) (hi : Option Nat) (lz : Bool) (r : RE)
  | grp (n : Nat) (r : RE)
  | bow
  | bolA
  | eolA
  | nlb (p : CC)
deriving DecidableEq, Repr

def reSize : RE → Nat
  | .eps => 1
  | .cls _ => 1
  | .seq a b => reSize a + reSize b + 1
  | .alt a b => reSize a + reSize b + 1
  | .rep _ _ _ r => reSize r + 2
  | .grp _ r => reSize r + 1
  | .bow => 1
  | .bolA => 1
  | .eolA => 1
  | .nlb _ => 1

/-- Captured groups: `(group, start, stop)`, most recent first. -/
abbrev Caps := List (Nat × Nat × Nat)

def capLookup (caps : Caps) (n : Nat) : Option (Nat × Nat) :=
  (caps.find? (fun t => t.1 == n)).map (·.2)

/-- Backtracking matcher in continuation-passing style.  The fuel bounds the
depth of the search tree; `reFuel` below is linear in input and pattern size,
which over-approximates the depth needed by every pattern in this program.
Alternatives are tried left to right and greedy repetition prefers longer
matches, as in Python `re`. -/
def reMat (s : List Char) (mline : Bool) :
    Nat → RE → Nat → Caps → (Nat → Caps → Option (Nat × Caps)) → Option (Nat × Caps)
  | 0, _, _, _, _ => none
  | fuel + 1, r, pos, caps, k =>
    match r with
    | .eps => k pos caps
    | .cls p =>
      match s.get? pos with
      | some c => if ccMatch p c then k (pos + 1) caps else none
      | none => none
    | .seq a b =>
      reMat s mline fuel a pos caps (fun p2 c2 => reMat s mline fuel b p2 c2 k)
    | .alt a b =>
      match reMat s mline fuel a pos caps k with
      | some res => some res
      | none => reMat s mline fuel b pos caps k
    | .rep lo hi lz r1 =>
      if lo > 0 then
        reMat s mline fuel r1 pos caps (fun p2 c2 =>
          reMat s mline fuel (.rep (lo - 1) (hi.map (· - 1)) lz r1) p2 c2 k)
      else
        match hi with
        | some 0 => k pos caps
        | _ =>
          if lz then
            match k pos caps with
            | some res => some res
            | none =>
              reMat s mline fuel r1 pos caps (fun p2 c2 =>
                if p2 == pos then none
                else reMat s mline fuel (.rep 0 (hi.map (· - 1)) lz r1) p2 c2 k)
          else
            match reMat s mline fuel r1 pos caps (fun p2 c2 =>
                if p2 == pos then none
                else reMat s mline fuel (.rep 0 (hi.map (· - 1)) lz r1) p2 c2 k) with
            | some res => some res
            | none => k pos caps
    | .grp n r1 =>
      reMat s mline fuel r1 pos caps (fun p2 c2 => k p2 ((n, pos, p2) :: c2))
    | .bow =>
      let before :=
        match pos with
        | 0 => false
        | q + 1 => match s.get? q with | some c => pyIsWordChar c | none => false
      let after := match s.get? pos with | some c => pyIsWordChar c | none => false
      if before != after then k pos caps else none
    | .bolA =>
      let afterNl :=
        match pos with
        | 0 => false
        | q + 1 => s.get? q == some '\n'
      if pos == 0 || (mline && afterNl) then k pos caps else none
    | .eolA =>
      if pos == s.length then k pos caps
      else if s.get? pos == some '\n' && (mline || pos + 1 == s.length) then k pos caps
      else none
    | .nlb p =>
      let bad :=
        match pos with
        | 0 => false
        | q + 1 => match s.get? q with | some c => ccMatch p c | none => false
      if bad then none else k pos caps

def reFuel (n sz : Nat) : Nat :=
  12 * n + 4 * sz + 80

/-- Leftmost match attempt at or after position `start`.  Returns
`(start, stop, captures)` of the match. -/
def reSearchFrom (mline : Bool) (r : RE) (s : List Char) (start : Nat) :
    Option (Nat × Nat × Caps) :=
  ((List.range (s.length + 1 - start)).map (· + start)).findSome? (fun i =>
    match reMat s mline (reFuel s.length (reSize r)) r i [] (fun p c => some (p, c)) with
    | some pc => some (i, pc.1, pc.2)
    | none => none)

/-- `re.search`: leftmost match in the whole string. -/
def reSearchL (mline : Bool) (r : RE) (s : List Char) : Option (Nat × Nat × Caps) :=
  reSearchFrom mline r s 0

def subStr (s : List Char) (a b : Nat) : String :=
  String.mk ((s.drop a).take (b - a))

/-- `match.group(1)` of a search result (whole match if group 1 is absent). -/
def matchGroup1 (s : List Char) : Nat × Nat × Caps → String
  | (a, b, caps) =>
    match capLookup caps 1 with
    | some se => subStr s se.1 se.2
    | none => subStr s a b

/-- `match.group(0)` of a search result. -/
def matchGroup0 (s : List Char) : Nat × Nat × Caps → String
  | (a, b, _) => subStr s a b

/-- `re.findall` for the single-group patterns of this program: all
non-overlapping matches left to right, returning group 1. -/
def reFindallGo (mline : Bool) (r : RE) (s : List Char) :
    Nat → Nat → List String
  | 0, _ => []
  | fuel + 1, pos =>
    match reSearchFrom mline r s pos with
    | none => []
    | some m =>
      matchGroup1 s m :: reFindallGo mline r s fuel (if m.2.1 == m.1 then m.2.1 + 1 else m.2.1)

def reFindall (mline : Bool) (r : RE) (s : List Char) : List String :=
  reFindallGo mline r s (s.length + 2) 0

/-- `re.sub(pattern, "", s)` for the patterns of this program (each match
consumes at least one character and uses no `^`/`\b` context, so scanning
may continue on the dropped tail). -/
def reSubEmptyGo (mline : Bool) (r : RE) : Nat → List Char → List Char
  | 0, s => s
  | fuel + 1, s =>
    match reSearchL mline r s with
    | none => s
    | some (a, b, _) =>
      if b ≤ a then s
      else s.take a ++ reSubEmptyGo mline r fuel (s.drop b)

def reSubEmpty (mline : Bool) (r : RE) (s : List Char) : List Char :=
  reSubEmptyGo mline r (s.length + 1) s

-- Pattern-building helpers -------------------------------------------------

/-- Case-sensitive literal (the source always applies `re.escape` first, so
a literal is exactly what these code points denote). -/
def relit (s : String) : RE :=
  s.data.foldr (fun c acc => RE.seq (RE.cls (.ch c)) acc) RE.eps

/-- Literal under `re.IGNORECASE`. -/
def relitCI (s : String) : RE :=
  s.data.foldr (fun c acc => RE.seq (RE.cls (.chCI c)) acc) RE.eps

def reStar (r : RE) : RE := RE.rep 0 none false r
def rePlus (r : RE) : RE := RE.rep 1 none false r
def reOpt (r : RE) : RE := RE.rep 0 (some 1) false r
def reSeqs (l : List RE) : RE := l.foldr RE.seq RE.eps

def ws0 : RE := reStar (RE.cls .wspace)
def ws1 : RE := rePlus (RE.cls .wspace)
def ccLetter : CC := .union (.rng 'A' 'Z') (.rng 'a' 'z')
def ccDigit09 : CC := .rng '0' '9'

-- ===================================================================
-- SynonymResolver (src/jobs/synonym_resolver.py, built-in defaults:
-- no config/synonyms.json ships with the repository, so the resolver
-- falls back to `_load_defaults`)
-- ===================================================================

def synTable : List (String × List String) := [
  ("qc", ["quality criticality", "quality crit", "criticality"]),
  ("quality criticality", ["qc", "quality crit"]),
  ("wo", ["work order", "work order number", "workorder"]),
  ("work order", ["wo", "wo #", "work order number"]),
  ("order", ["order number", "order #", "order no"]),
  ("equipment", ["equipment id", "equip", "eq"]),
  ("building", ["bldg", "building number", "bldg #"]),
  ("date", ["due date", "finish date", "completion date"]),
  ("status", ["completion status", "state"]),
  ("description", ["desc", "details"]),
  ("comments", ["notes", "remarks"])]

/-- Deduplication step of `get_synonyms`: keep the first entry for each
`s.lower().strip()` key. -/
def dedupLowerGo : List String → List String → List String
  | _, [] => []
  | seen, s :: rest =>
    let sl := pyStrip (pyLower s)
    if seen.contains sl then dedupLowerGo seen rest
    else s :: dedupLowerGo (sl :: seen) rest

def get_synonyms (column_name : String) : List String :=
  let name_lower := pyStrip (pyLower column_name)
  let base := [column_name, name_lower] ++ ((lookupk synTable name_lower).getD [])
  let extra := synTable.foldl (fun acc kv =>
    if kv.2.contains name_lower || pyContains name_lower kv.1 || pyContains kv.1 name_lower
    then acc ++ [kv.1] ++ kv.2 else acc) []
  dedupLowerGo [] (base ++ extra)

/-- `SynonymResolver.matches` / module-level `columns_match`. -/
def columns_match (column_name search_term : String) : Bool :=
  let col_lower := pyStrip (pyLower column_name)
  let search_lower := pyStrip (pyLower search_term)
  if col_lower == search_lower then true
  else if pyContains col_lower search_lower || pyContains search_lower col_lower then true
  else
    let col_syns := (get_synonyms column_name).map pyLower
    let search_syns := (get_synonyms search_term).map pyLower
    col_syns.any (fun s => search_syns.contains s)

-- ===================================================================
-- email_to_table.py
-- ===================================================================

/-- Confidence helper `_confidence` (underscore dropped for Lean). -/
def conf_of (source : String) (matched : Bool) : Nat :=
  if !matched then 0
  else if source == "direct" then 10
  else if source == "standard_field" then 9
  else if source == "rule" then 8
  else if source == "synonym_direct" then 7
  else if source == "smart_heading" then 6
  else if source == "smart_fallback" then 3
  else 5

/-- Body of `re.sub(r"\s+", " ", text)` : collapse whitespace runs. -/
def collapseWsGo : List Char → Bool → List Char
  | [], _ => []
  | c :: rest, prevSpace =>
    if pyIsSpace c then
      if prevSpace then collapseWsGo rest true
      else ' ' :: collapseWsGo rest true
    else c :: collapseWsGo rest false

def collapseWsOnly (s : String) : String := String.mk (collapseWsGo s.data false)

def normalize_text (text : String) : String :=
  pyLower (pyStrip (collapseWsOnly text))

def extract_snippet (text : String) (match_pos context : Nat) : String :=
  let start := if match_pos ≥ context then match_pos - context else 0
  let stop := min text.data.length (match_pos + context)
  let snippet := String.mk ((text.data.drop start).take (stop - start))
  let snippet := if start > 0 then "..." ++ snippet else snippet
  let snippet := if stop < text.data.length then snippet ++ "..." else snippet
  pyStrip snippet

def get_search_content (email_data : EmailData) (search_in : List String) : String :=
  let search_in := if search_in.contains "all" then
    ["subject", "body", "attachments_text", "attachments_names", "from", "to"]
  else search_in
  let parts : List String :=
    (if search_in.contains "subject" then [edGetS email_data "subject"] else []) ++
    (if search_in.contains "body" then [edGetS email_data "body"] else []) ++
    (if search_in.contains "attachments_text" then edGetList email_data "attachment_text" else []) ++
    (if search_in.contains "attachments_names" then edGetList email_data "attachments" else []) ++
    (if search_in.contains "from" then [edGetS email_data "from"] else []) ++
    (if search_in.contains "to" then [edGetS email_data "to"] else [])
  String.intercalate " " parts

/-- A keyword/regex rule.  The user-written regex string is carried together
with its meaning as an `RE` (the code compiles it with `re.IGNORECASE`; a
malformed pattern, which the code catches and ignores, has no counterpart
in the first-order AST). -/
structure Rule where
  column : String
  keywords : List String
  regex : Option (String × RE)
  value : String
  unmatched_value : String
  search_in : List String
  word_boundary : Bool
  priority : Int
deriving DecidableEq, Repr

/-- Explanation entry.  Keys that a given source branch does not emit are
`none`. -/
structure Expl where
  matched : Bool
  match_type : Option String
  matched_term : Option String
  search_in : List String
  snippet : Option String
  confidence : Nat
  source : String
  extract_type : Option String
deriving DecidableEq, Repr

/-- Python `haystack.find(needle)`. -/
def pyFind (haystack needle : String) : Option Nat :=
  (List.range (haystack.data.length + 1)).find? (fun i =>
    needle.data.isPrefixOf (haystack.data.drop i))

/-- The keyword loop of `apply_keyword_rules_enhanced`: first keyword that
hits wins; returns `(match_type, matched_term, snippet)`.  Note the code
takes the snippet from the raw content at the position found in the
normalized content. -/
def keywordScan (explain : Bool) (content normalized : String) (word_boundary : Bool) :
    List String → Option (String × String × Option String)
  | [] => none
  | kw :: rest =>
    let kwl := pyLower kw
    if word_boundary then
      match reSearchL false (reSeqs [RE.bow, relit kwl, RE.bow]) normalized.data with
      | some m =>
        some ("keyword_word", kw, if explain then some (extract_snippet content m.1 30) else none)
      | none => keywordScan explain content normalized word_boundary rest
    else
      if pyContains normalized kwl then
        some ("keyword_substring", kw,
          if explain then some (extract_snippet content ((pyFind normalized kwl).getD 0) 30) else none)
      else keywordScan explain content normalized word_boundary rest

/-- `rules.index(r)`: index of the first structurally equal rule. -/
def firstIndexOf (rules : List Rule) (r : Rule) : Nat :=
  rules.indexOf r

def ruleKey (rules : List Rule) (r : Rule) : Int × Int :=
  (r.priority, -(Int.ofNat (firstIndexOf rules r)))

/-- Lexicographic order on sort keys. -/
def keyLe (a b : Int × Int) : Bool :=
  a.1 < b.1 || (a.1 == b.1 && a.2 ≤ b.2)

/-- `sorted(rules, key=lambda r: (priority, -rules.index(r)), reverse=True)`:
a stable descending sort.  A stable sort for a total preorder is unique, so
the (stable, structurally recursive) insertion sort with the reversed
comparison computes exactly what Python computes. -/
def sortRules (rules : List Rule) : List Rule :=
  rules.insertionSort (fun a b => keyLe (ruleKey rules b) (ruleKey rules a) = true)

/-- The match attempt of one rule: the keyword loop, then (`if no keyword
matched`) the rule's regex against the raw content.  Returns
`(match_type, matched_term, snippet)` on a hit. -/
def ruleMatchInfo (email_data : EmailData) (explain : Bool) (rule : Rule) :
    Option (String × String × Option String) :=
  let content := get_search_content email_data rule.search_in
  let normalized := normalize_text content
  match keywordScan explain content normalized rule.word_boundary rule.keywords with
  | some r => some r
  | none =>
    match rule.regex with
    | some (pstr, pat) =>
      if pstr == "" then none
      else
        match reSearchL false pat content.data with
        | some m =>
          some ("regex", pstr, if explain then some (extract_snippet content m.1 30) else none)
        | none => none
    | none => none

/-- Whether a rule matches a unit (the `matched` flag of the rule loop;
independent of explain mode). -/
def ruleMatches (email_data : EmailData) (rule : Rule) : Bool :=
  (ruleMatchInfo email_data false rule).isSome

/-- Body of the rule loop: one rule applied to the running
`(result, explanations)` state. -/
def applyOneRule (email_data : EmailData) (explain : Bool)
    (st : (List (String × String)) × (List (String × Expl))) (rule : Rule) :
    (List (String × String)) × (List (String × Expl)) :=
  if st.1.any (fun e => e.1 == rule.column) then st
  else
    let mRes := ruleMatchInfo email_data explain rule
    let matched := mRes.isSome
    let result := setk st.1 rule.column (if matched then rule.value else rule.unmatched_value)
    let explanations :=
      if explain then
        setk st.2 rule.column
          ⟨matched, mRes.map (·.1), mRes.map (·.2.1), rule.search_in, mRes.bind (·.2.2),
           conf_of "rule" matched, "rule", none⟩
      else st.2
    (result, explanations)

def apply_keyword_rules_enhanced (email_data : EmailData) (rules : List Rule)
    (explain : Bool) : (List (String × String)) × (List (String × Expl)) :=
  (sortRules rules).foldl (applyOneRule email_data explain) ([], [])

def extract_email_fields (email_data : EmailData) : List (String × String) :=
  let att := String.intercalate "; " (edGetList email_data "attachments")
  [("Subject", edGetS email_data "subject"),
   ("From", edGetS email_data "from"),
   ("To", edGetS email_data "to"),
   ("Date", edGetS email_data "date"),
   ("Body", edGetS email_data "body"),
   ("Attachments", att),
   ("subject", edGetS email_data "subject"),
   ("from", edGetS email_data "from"),
   ("to", edGetS email_data "to"),
   ("date", edGetS email_data "date"),
   ("body", edGetS email_data "body"),
   ("attachments", att),
   ("Sender", edGetS email_data "from"),
   ("sender", edGetS email_data "from"),
   ("From Address", edGetS email_data "from"),
   ("Recipient", edGetS email_data "to"),
   ("recipient", edGetS email_data "to"),
   ("To Address", edGetS email_data "to"),
   ("Received", edGetS email_data "date"),
   ("received", edGetS email_data "date"),
   ("Sent", edGetS email_data "date"),
   ("sent", edGetS email_data "date"),
   ("Message", edGetS email_data "body"),
   ("message", edGetS email_data "body"),
   ("Content", edGetS email_data "body"),
   ("content", edGetS email_data "body"),
   ("Email Body", edGetS email_data "body")]

-- _extract_number_only / extract_prefix_numbers ----------------------------

def numSuffixes : List String := ["number", "num", "#", "no.", "no", "id", "code", "ref", "reference"]

/-- One pass of `re.sub(rf"\s*{suffix}\s*$", "", p, flags=re.IGNORECASE)`. -/
def stripOneSuffix (p : String) (suffix : String) : String :=
  String.mk (reSubEmpty false (reSeqs [ws0, relitCI suffix, ws0, RE.eolA]) p.data)

/-- The suffix-stripping loop producing the id prefix of a column name. -/
def numPrefixOf (column_name : String) : String :=
  pyStrip (numSuffixes.foldl stripOneSuffix column_name)

/-- Pattern `{name}\s*[:\-=]\s*([^\n,;]+)` (IGNORECASE). -/
def labelPatNum (name : String) : RE :=
  reSeqs [relitCI name, ws0, RE.cls (ccOneOf [':', '-', '=']), ws0,
    RE.grp 1 (rePlus (RE.cls (.compl (ccOneOf ['\n', ',', ';']))))]

/-- `re.sub(r"[,;:\s]+$", "", value)` : drop the trailing run of those chars. -/
def stripTrailingPunct (s : String) : String :=
  String.mk ((s.data.reverse.dropWhile (fun c => c == ',' || c == ';' || c == ':' || pyIsSpace c)).reverse)

/-- `re.sub(r"[#\s\.\-_]+", "", column_name)`. -/
def stripIdChars (s : String) : String :=
  String.mk (s.data.filter (fun c => !(c == '#' || pyIsSpace c || c == '.' || c == '-' || c == '_')))

/-- `re.sub(r"-+", "-", s)`. -/
def collapseDashesGo : List Char → Bool → List Char
  | [], _ => []
  | c :: rest, prevDash =>
    if c == '-' then
      if prevDash then collapseDashesGo rest true
      else '-' :: collapseDashesGo rest true
    else c :: collapseDashesGo rest false

def collapseDashes (s : String) : String := String.mk (collapseDashesGo s.data false)

/-- `re.split(r"\s{2,}|\t", value)[0]`. -/
def splitHeadGo (semi : Bool) : List Char → List Char → String
  | acc, [] => String.mk acc.reverse
  | acc, c :: rest =>
    if c == '\t' then String.mk acc.reverse
    else if semi && c == ';' then String.mk acc.reverse
    else if pyIsSpace c then
      match rest with
      | c2 :: _ =>
        if pyIsSpace c2 then String.mk acc.reverse else splitHeadGo semi (c :: acc) rest
      | [] => splitHeadGo semi (c :: acc) rest
    else splitHeadGo semi (c :: acc) rest

def splitHeadWsTab (s : String) : String := splitHeadGo false [] s.data

/-- `re.split(r"\s{2,}|\t|;", value)[0]` (the variant used by the expander). -/
def splitHeadWsTabSemi (s : String) : String := splitHeadGo true [] s.data

/-- Table pattern `{prefix}\s*[:\t]\s*([^\n\t]+)` (IGNORECASE | MULTILINE). -/
def epnTablePat1 (pfxc : String) : RE :=
  reSeqs [relitCI pfxc, ws0, RE.cls (ccOneOf [':', '\t']), ws0,
    RE.grp 1 (rePlus (RE.cls (.compl (ccOneOf ['\n', '\t']))))]

/-- Table pattern `^{prefix}\s+(.+)$` (IGNORECASE | MULTILINE). -/
def epnTablePat2 (pfxc : String) : RE :=
  reSeqs [RE.bolA, relitCI pfxc, ws1, RE.grp 1 (rePlus (RE.cls .anyc)), RE.eolA]

/-- Per-match processing of the table loop of `extract_prefix_numbers`. -/
def epnAddVal (acc : List String) (m : String) : List String :=
  let value := pyStrip (splitHeadWsTab (pyStrip m))
  if value ≠ "" && value.length < 50 && !acc.contains value then acc ++ [value] else acc

def epnVariations (pfxc : String) : List String :=
  if pyContains pfxc " " then
    let words := pySplitWs pfxc
    let acronym := String.mk (words.filterMap (fun w => w.data.head?.map Char.toUpper))
    [pfxc] ++ (if acronym.length ≥ 2 then [acronym] else []) ++ [words.headD ""]
  else [pfxc]

def ccLetterD : CC := .union .digit (.union (.ch '-') ccLetter)

/-- `(?<![A-Za-z]){var}\s*[#:\-_/\.]*\s*(\d[\d\-A-Za-z]*)` (IGNORECASE). -/
def epnPat1 (var : String) : RE :=
  reSeqs [RE.nlb ccLetter, relitCI var, ws0,
    reStar (RE.cls (ccOneOf ['#', ':', '-', '_', '/', '.'])), ws0,
    RE.grp 1 (reSeqs [RE.cls .digit, reStar (RE.cls ccLetterD)])]

/-- `(?<![A-Za-z]){var}(\d+)` (IGNORECASE). -/
def epnPat2 (var : String) : RE :=
  reSeqs [RE.nlb ccLetter, relitCI var, RE.grp 1 (rePlus (RE.cls .digit))]

/-- `(\d{6,}\s*{var}[0-9]*)` (IGNORECASE). -/
def epnPat3 (var : String) : RE :=
  RE.grp 1 (reSeqs [RE.rep 6 none false (RE.cls .digit), ws0, relitCI var,
    reStar (RE.cls ccDigit09)])

/-- `\b({var[0]}[0-9]{2,})\b` (IGNORECASE; the literal is omitted when the
variation is empty, as in the source conditional). -/
def epnPat4 (var : String) : RE :=
  reSeqs [RE.bow,
    RE.grp 1 (reSeqs [(match var.data.head? with | some c => RE.cls (.chCI c) | none => RE.eps),
      RE.rep 2 none false (RE.cls ccDigit09)]),
    RE.bow]

/-- Per-match processing of the variation loop of `extract_prefix_numbers`. -/
def epnAddMatch (var : String) (acc : List String) (m : String) : List String :=
  let value := pyStrip (pyStripChars ['-'] m)
  if value ≠ "" then
    let formatted :=
      if !(pyStartsWith (pyUpper value) (pyUpper var)) then pyUpper var ++ "-" ++ value
      else value
    let formatted := collapseDashes formatted
    if !acc.contains formatted then acc ++ [formatted] else acc
  else acc

def extract_prefix_numbers (pfx : String) (content : String) : String :=
  let pfxc := pyStrip pfx
  let tableVals := (reFindall true (epnTablePat1 pfxc) content.data ++
    reFindall true (epnTablePat2 pfxc) content.data).foldl epnAddVal []
  if !tableVals.isEmpty then String.intercalate "; " (tableVals.take 5)
  else
    let extracted := (epnVariations pfxc).foldl (fun acc var =>
      let ms := reFindall false (epnPat1 var) content.data ++
        reFindall false (epnPat2 var) content.data ++
        reFindall false (epnPat3 var) content.data ++
        reFindall false (epnPat4 var) content.data
      ms.foldl (epnAddMatch var) acc) []
    if !extracted.isEmpty then String.intercalate "; " (extracted.take 10) else ""

/-- Strategy-4 patterns of `_extract_number_only` (searched case-sensitively). -/
def alphaNumPatterns : List RE :=
  [reSeqs [RE.bow, RE.grp 1 (reSeqs [RE.rep 2 none false (RE.cls (.rng 'A' 'Z')),
     RE.rep 2 none false (RE.cls ccDigit09)]), RE.bow],
   reSeqs [RE.bow, RE.grp 1 (reSeqs [RE.rep 6 none false (RE.cls ccDigit09), ws0,
     RE.rep 2 none false (RE.cls (.rng 'A' 'Z')), reStar (RE.cls ccDigit09)]), RE.bow],
   reSeqs [RE.bow, RE.grp 1 (reSeqs [RE.cls (.rng 'A' 'Z'),
     RE.rep 2 none false (RE.cls ccDigit09)]), RE.bow]]

def idLikeColumns : List String :=
  ["equipment", "order", "work order", "building", "code", "id", "reference"]

def _extract_number_only (column_name content : String) : String :=
  let column_lower := pyStrip (pyLower column_name)
  let pfx := numPrefixOf column_name
  let s1 := [labelPatNum column_name, labelPatNum pfx].findSome? (fun pat =>
    match reSearchL false pat content.data with
    | some m =>
      let value := stripTrailingPunct (pyStrip (matchGroup1 content.data m))
      if value ≠ "" && value.length < 50 then some value else none
    | none => none)
  match s1 with
  | some v => v
  | none =>
    let s2 := if pfx ≠ "" then extract_prefix_numbers pfx content else ""
    if s2 ≠ "" then s2
    else
      let column_stripped := stripIdChars column_name
      let s3 := if column_stripped.length ≤ 6 && pyIsUpper column_stripped then
          extract_prefix_numbers column_stripped content
        else ""
      if s3 ≠ "" then s3
      else if idLikeColumns.contains column_lower then
        (alphaNumPatterns.findSome? (fun pat =>
          let ms := reFindall false pat content.data
          if ms.isEmpty then none
          else some (String.intercalate "; " ((dedupFirst ms).take 5)))).getD ""
      else ""

-- smart_search_column ------------------------------------------------------

structure SMeta where
  source : String
  confidence : Nat
deriving DecidableEq, Repr

def mkMeta (source : String) (confidence : Nat) : SMeta := ⟨source, confidence⟩

/-- Python truthiness of `email_data.get(k)`. -/
def edTruthy (ed : EmailData) (k : String) : Bool :=
  match edLookup ed k with
  | some v => pyTruthy v
  | none => false

/-- The combined content string of `smart_search_column` (note the source
applies `str` to `attachment_text`, rendering a list with brackets, and
`" ".join` to `attachments`). -/
def smartContent (email_data : EmailData) : String :=
  edGetS email_data "subject" ++ "\n" ++ edGetS email_data "body" ++ "\n" ++
  edGetS email_data "from" ++ "\n" ++ edGetS email_data "to" ++ "\n" ++
  String.intercalate " " (edGetList email_data "attachments") ++ "\n" ++
  edGetS email_data "attachment_text"

/-- The `_focus_order` window: `.{0,400}{focus}.{0,400}` (IGNORECASE). -/
def focusNarrow (focus : String) (all_content : String) : String :=
  let pat := reSeqs [RE.rep 0 (some 400) false (RE.cls .anyc), relitCI focus,
    RE.rep 0 (some 400) false (RE.cls .anyc)]
  match reSearchL false pat all_content.data with
  | some m => matchGroup0 all_content.data m
  | none => all_content

def smartNumberBranch (names : List String) (all_content : String) : String × SMeta :=
  match names.findSome? (fun name =>
      let r := _extract_number_only name all_content
      if r ≠ "" then some r else none) with
  | some r => (r, mkMeta "smart_number" 7)
  | none => ("", mkMeta "smart_number" 0)

/-- Patterns `{name}\s*[:\-=]\s*([A-Za-z0-9][\w\s\-]*)` and
`{name}\t+([^\t\n]+)` (IGNORECASE). -/
def mixedLabelPats (name : String) : List RE :=
  [reSeqs [relitCI name, ws0, RE.cls (ccOneOf [':', '-', '=']), ws0,
     RE.grp 1 (reSeqs [RE.cls (.union ccLetter ccDigit09),
       reStar (RE.cls (.union .wordc (.union .wspace (.ch '-'))))])],
   reSeqs [relitCI name, rePlus (RE.cls (.ch '\t')),
     RE.grp 1 (rePlus (RE.cls (.compl (ccOneOf ['\t', '\n']))))]]

/-- `\b(\d{6,}\s*[A-Z]{2,}\d*)\b`, `\b([A-Z]{2,}\d{3,})\b`, `\b([A-Z]\d{2,})\b`. -/
def mixedAlphaNumPats : List RE :=
  [reSeqs [RE.bow, RE.grp 1 (reSeqs [RE.rep 6 none false (RE.cls .digit), ws0,
     RE.rep 2 none false (RE.cls (.rng 'A' 'Z')), reStar (RE.cls .digit)]), RE.bow],
   reSeqs [RE.bow, RE.grp 1 (reSeqs [RE.rep 2 none false (RE.cls (.rng 'A' 'Z')),
     RE.rep 3 none false (RE.cls .digit)]), RE.bow],
   reSeqs [RE.bow, RE.grp 1 (reSeqs [RE.cls (.rng 'A' 'Z'),
     RE.rep 2 none false (RE.cls .digit)]), RE.bow]]

def smartMixedBranch (names : List String) (all_content : String) : String × SMeta :=
  match names.findSome? (fun name =>
      (mixedLabelPats name).findSome? (fun pat =>
        match reSearchL false pat all_content.data with
        | some m =>
          let value := collapseWsOnly (pyStrip (matchGroup1 all_content.data m))
          if value ≠ "" then some value else none
        | none => none)) with
  | some v => (v, mkMeta "smart_label_match" 7)
  | none =>
    match mixedAlphaNumPats.findSome? (fun pat =>
        let ms := reFindall false pat all_content.data
        if ms.isEmpty then none
        else some (String.intercalate "; " ((dedupFirst ms).take 5))) with
    | some v => (v, mkMeta "smart_alphanumeric" 6)
    | none => ("", mkMeta "smart_alphanumeric" 0)

/-- `\d{1,2}[/\-]\d{1,2}[/\-]\d{2,4}|\d{4}[/\-]\d{1,2}[/\-]\d{1,2}`. -/
def datePat : RE :=
  RE.alt
    (reSeqs [RE.rep 1 (some 2) false (RE.cls .digit), RE.cls (ccOneOf ['/', '-']),
      RE.rep 1 (some 2) false (RE.cls .digit), RE.cls (ccOneOf ['/', '-']),
      RE.rep 2 (some 4) false (RE.cls .digit)])
    (reSeqs [RE.rep 4 (some 4) false (RE.cls .digit), RE.cls (ccOneOf ['/', '-']),
      RE.rep 1 (some 2) false (RE.cls .digit), RE.cls (ccOneOf ['/', '-']),
      RE.rep 1 (some 2) false (RE.cls .digit)])

def smartDateBranch (email_data : EmailData) (all_content : String) : String × SMeta :=
  if edTruthy email_data "date" then (edGetS email_data "date", mkMeta "smart_date" 8)
  else
    match reSearchL false datePat all_content.data with
    | some m => (matchGroup0 all_content.data m, mkMeta "smart_date" 7)
    | none => ("", mkMeta "smart_date" 0)

def ampmRE : RE := RE.alt (relit "AM") (RE.alt (relit "PM") (RE.alt (relit "am") (relit "pm")))

/-- `\b(\d{1,2}:\d{2}(?::\d{2})?\s*(?:AM|PM|am|pm)?)\b` and
`\b(\d{1,2}\s*(?:AM|PM|am|pm))\b`. -/
def timePats : List RE :=
  [reSeqs [RE.bow, RE.grp 1 (reSeqs [RE.rep 1 (some 2) false (RE.cls .digit),
     RE.cls (.ch ':'), RE.rep 2 (some 2) false (RE.cls .digit),
     reOpt (reSeqs [RE.cls (.ch ':'), RE.rep 2 (some 2) false (RE.cls .digit)]),
     ws0, reOpt ampmRE]), RE.bow],
   reSeqs [RE.bow, RE.grp 1 (reSeqs [RE.rep 1 (some 2) false (RE.cls .digit),
     ws0, ampmRE]), RE.bow]]

def timeSearch (all_content : String) : Option String :=
  timePats.findSome? (fun pat =>
    (reSearchL false pat all_content.data).map (matchGroup1 all_content.data))

/-- `[\$€£]\s*[\d,]+\.?\d*|\d{1,3}(?:,\d{3})*(?:\.\d{2})?`. -/
def amountPat : RE :=
  RE.alt
    (reSeqs [RE.cls (ccOneOf ['$', '€', '£']), ws0,
      rePlus (RE.cls (.union .digit (.ch ','))), reOpt (RE.cls (.ch '.')),
      reStar (RE.cls .digit)])
    (reSeqs [RE.rep 1 (some 3) false (RE.cls .digit),
      reStar (reSeqs [RE.cls (.ch ','), RE.rep 3 (some 3) false (RE.cls .digit)]),
      reOpt (reSeqs [RE.cls (.ch '.'), RE.rep 2 (some 2) false (RE.cls .digit)])])

/-- Patterns of the `text` branch, including the lazy two-space layout
pattern `{name}\s{2,}([^\s].*?)(?:\s{2,}|$)`. -/
def textLabelPats (name : String) : List RE :=
  [reSeqs [relitCI name, ws0, RE.cls (ccOneOf [':', '-', '=']), ws0,
     RE.grp 1 (rePlus (RE.cls (.compl (ccOneOf ['\n', '\t']))))],
   reSeqs [relitCI name, rePlus (RE.cls (.ch '\t')),
     RE.grp 1 (rePlus (RE.cls (.compl (ccOneOf ['\t', '\n']))))],
   reSeqs [relitCI name, RE.rep 2 none false (RE.cls .wspace),
     RE.grp 1 (reSeqs [RE.cls (.compl .wspace), RE.rep 0 none true (RE.cls .anyc)]),
     RE.alt (RE.rep 2 none false (RE.cls .wspace)) RE.eolA]]

def smartTextBranch (names : List String) (all_content : String) : String × SMeta :=
  match names.findSome? (fun name =>
      (textLabelPats name).findSome? (fun pat =>
        match reSearchL false pat all_content.data with
        | some m =>
          let value := collapseWsOnly (pyStrip (matchGroup1 all_content.data m))
          if value ≠ "" then some value else none
        | none => none)) with
  | some v => (v, mkMeta "smart_label_text" 6)
  | none => ("", mkMeta "smart_text" 0)

def number_indicators : List String := ["#", "number", "no.", "no", "id", "num", "code", "ref", "reference"]

/-- Label pattern of the auto branch: `{name}\s*[:\-=]\s*([^\n,;]+)`. -/
def autoLabelPat (name : String) : RE := labelPatNum name

/-- Keyword-existence pattern `\b{term}\b` searched in the lowercased
content. -/
def wordHit (term : String) (all_content_lower : String) : Bool :=
  (reSearchL false (reSeqs [RE.bow, relit term, RE.bow]) all_content_lower.data).isSome

/-- Auto bucket 1: id-indicator or short-abbreviation columns go through
the number extractor and stop there (value possibly empty). -/
def autoNumberHit (column_name all_content column_lower : String) :
    Option (String × SMeta) :=
  let column_stripped := stripIdChars column_name
  let is_number_column := number_indicators.any (fun ind => pyContains column_lower ind)
  let is_abbreviation := column_stripped.length ≤ 5 && pyIsUpper column_stripped
  if is_number_column || is_abbreviation then
    let result := _extract_number_only column_name all_content
    if result ≠ "" then some (result, mkMeta "smart_number" 7)
    else some ("", mkMeta "smart_number" 0)
  else none

/-- Auto bucket 2: time keywords. -/
def autoTimeHit (all_content column_lower : String) : Option (String × SMeta) :=
  if ["time", "hour", "clock", "start time", "end time", "meeting time"].any
      (fun kw => pyContains column_lower kw) then
    (timeSearch all_content).map (fun v => (v, mkMeta "smart_time" 6))
  else none

/-- Auto bucket 3: date keywords. -/
def autoDateHit (email_data : EmailData) (all_content column_lower : String) :
    Option (String × SMeta) :=
  if ["date", "when", "received", "sent", "due"].any (fun kw => pyContains column_lower kw) then
    if edTruthy email_data "date" then some (edGetS email_data "date", mkMeta "smart_date" 8)
    else
      match reSearchL false datePat all_content.data with
      | some m => some (matchGroup0 all_content.data m, mkMeta "smart_date" 7)
      | none => none
  else none

/-- Auto bucket 4: amount keywords. -/
def autoAmountHit (all_content column_lower : String) : Option (String × SMeta) :=
  if ["amount", "total", "price", "cost", "qty", "quantity", "dollar", "payment"].any
      (fun kw => pyContains column_lower kw) then
    ((reSearchL false amountPat all_content.data).map (matchGroup0 all_content.data)).map
      (fun v => (v, mkMeta "smart_amount" 6))
  else none

/-- Auto bucket 5: priority keywords (terminal when the bucket applies). -/
def autoPriorityHit (all_content_lower column_lower : String) : Option (String × SMeta) :=
  if ["priority", "urgent", "importance"].any (fun kw => pyContains column_lower kw) then
    if ["urgent", "asap", "critical", "high priority", "important", "immediately"].any
        (fun kw => pyContains all_content_lower kw) then
      some ("High", mkMeta "smart_priority" 6)
    else if ["low priority", "fyi", "when possible", "no rush"].any
        (fun kw => pyContains all_content_lower kw) then
      some ("Low", mkMeta "smart_priority" 6)
    else some ("Normal", mkMeta "smart_priority" 4)
  else none

/-- Auto bucket 6: status keywords (falls through when no status word is
found in the content). -/
def autoStatusHit (all_content_lower column_lower : String) : Option (String × SMeta) :=
  if ["status", "state"].any (fun kw => pyContains column_lower kw) then
    if ["complete", "done", "finished", "resolved", "closed", "approved"].any
        (fun kw => pyContains all_content_lower kw) then
      some ("Complete", mkMeta "smart_status" 6)
    else if ["pending", "waiting", "in progress", "ongoing", "review"].any
        (fun kw => pyContains all_content_lower kw) then
      some ("Pending", mkMeta "smart_status" 5)
    else if ["open", "new", "unread", "submitted"].any
        (fun kw => pyContains all_content_lower kw) then
      some ("Open", mkMeta "smart_status" 5)
    else if ["reject", "denied", "cancel"].any
        (fun kw => pyContains all_content_lower kw) then
      some ("Rejected", mkMeta "smart_status" 5)
    else none
  else none

/-- Auto bucket 7: `Label: value` for the name and each synonym. -/
def autoLabelHit (names : List String) (all_content : String) : Option (String × SMeta) :=
  (names.findSome? (fun name =>
    match reSearchL false (autoLabelPat name) all_content.data with
    | some m =>
      let value := collapseWsOnly (pyStrip (matchGroup1 all_content.data m))
      if value ≠ "" then some value else none
    | none => none)).map (fun v => (v, mkMeta "smart_label_match" 5))

/-- Auto bucket 8: `Label: value` for the first word of a multi-word name. -/
def autoFirstWordHit (column_name all_content : String) : Option (String × SMeta) :=
  if pyContains column_name " " then
    let first_word := (pySplitWs column_name).headD ""
    if first_word.length ≥ 2 then
      (match reSearchL false (autoLabelPat first_word) all_content.data with
       | some m =>
         let value := collapseWsOnly (pyStrip (matchGroup1 all_content.data m))
         if value ≠ "" then some value else none
       | none => none).map (fun v => (v, mkMeta "smart_label_match" 4))
    else none
  else none

/-- Auto bucket 9 (last resort): word-boundary existence of the name or one
of its words. -/
def autoKeywordFinal (column_name all_content_lower : String) : String × SMeta :=
  let search_terms := [column_name] ++
    (if pyContains column_name " " then pySplitWs column_name else [])
  if search_terms.any (fun term => term.length ≥ 2 && wordHit (pyLower term) all_content_lower) then
    ("Yes", mkMeta "smart_keyword" 3)
  else ("", mkMeta "smart_search" 0)

/-- The `auto` dispatch: the keyword buckets of `smart_search_column` in
their declared order. -/
def smartAutoBranch (email_data : EmailData) (column_name : String)
    (names : List String) (all_content all_content_lower column_lower : String) :
    String × SMeta :=
  match autoNumberHit column_name all_content column_lower with
  | some r => r
  | none =>
    match autoTimeHit all_content column_lower with
    | some r => r
    | none =>
      match autoDateHit email_data all_content column_lower with
      | some r => r
      | none =>
        match autoAmountHit all_content column_lower with
        | some r => r
        | none =>
          match autoPriorityHit all_content_lower column_lower with
          | some r => r
          | none =>
            match autoStatusHit all_content_lower column_lower with
            | some r => r
            | none =>
              match autoLabelHit names all_content with
              | some r => r
              | none =>
                match autoFirstWordHit column_name all_content with
                | some r => r
                | none => autoKeywordFinal column_name all_content_lower

/-- The content actually searched: the combined content, narrowed to the
`_focus_order` window when that marker is set. -/
def smartSearchContent (email_data : EmailData) : String :=
  let all_content0 := smartContent email_data
  if edTruthy email_data "_focus_order" then
    focusNarrow (edGetS email_data "_focus_order") all_content0
  else all_content0

def smart_search_column (email_data : EmailData) (column_name : String)
    (extract_type : String) (use_synonyms : Bool) : String × SMeta :=
  let all_content := smartSearchContent email_data
  let all_content_lower := pyLower all_content
  let column_lower := pyStrip (pyLower column_name)
  let column_synonyms := if use_synonyms then get_synonyms column_name else [column_name]
  if extract_type == "number" then
    smartNumberBranch ([column_name] ++ column_synonyms) all_content
  else if extract_type == "mixed" then
    smartMixedBranch ([column_name] ++ (if use_synonyms then column_synonyms else [])) all_content
  else if extract_type == "date" then
    smartDateBranch email_data all_content
  else if extract_type == "time" then
    match timeSearch all_content with
    | some v => (v, mkMeta "smart_time" 6)
    | none => ("", mkMeta "smart_time" 0)
  else if extract_type == "amount" then
    match reSearchL false amountPat all_content.data with
    | some m => (matchGroup0 all_content.data m, mkMeta "smart_amount" 7)
    | none => ("", mkMeta "smart_amount" 0)
  else if extract_type == "yesno" then
    if wordHit column_lower all_content_lower then ("Yes", mkMeta "smart_yesno" 5)
    else ("No", mkMeta "smart_yesno" 5)
  else if extract_type == "text" then
    smartTextBranch ([column_name] ++ (if use_synonyms then column_synonyms else [])) all_content
  else
    smartAutoBranch email_data column_name
      ([column_name] ++ (if use_synonyms then column_synonyms else []))
      all_content all_content_lower column_lower

-- email_to_record ----------------------------------------------------------

structure ColumnSpec where
  name : String
  extract_type : String
deriving DecidableEq, Repr

structure Schema where
  columns : List ColumnSpec
deriving DecidableEq, Repr

/-- `_ai_assist` : the placeholder always reports no suggestion. -/
def _ai_assist (_email_data : EmailData) (_column_name _extract_type : String) :
    String × SMeta :=
  ("", ⟨"ai_assist", 0⟩)

/-- The priority-1 key scan of `email_to_record`.  The running pair is
`(matched_key, direct_value)`; an exact or `columns_match` hit breaks
immediately, a synonym hit breaks only when the value is truthy (otherwise
the pair is remembered and the scan continues). -/
def directScanGo (col : String) (useSyn : Bool) (colSyns : List String) :
    List (String × Val) → Option String → Option Val → Option String × Option Val
  | [], mk, dv => (mk, dv)
  | (k, v) :: rest, mk, dv =>
    if pyLower k == pyLower col || k == col then (some k, some v)
    else if useSyn && columns_match k col then (some k, some v)
    else if useSyn && colSyns.any (fun syn =>
        pyLower k == pyLower syn || pyContains (pyLower k) (pyLower syn) ||
        pyContains (pyLower syn) (pyLower k)) then
      if pyTruthy v then (some k, some v)
      else directScanGo col useSyn colSyns rest (some k) (some v)
    else directScanGo col useSyn colSyns rest mk dv

def directScan (email_data : EmailData) (col : String) (useSyn : Bool)
    (colSyns : List String) : Option String × Option Val :=
  directScanGo col useSyn colSyns email_data none none

/-- Resolution of one schema column (the body of the `for col in
schema["columns"]` loop).  Returns the record value and, in explain mode,
the explanation entry. -/
def resolveColumn (email_data : EmailData) (standard_fields rule_results : List (String × String))
    (use_synonyms use_ai : Bool) (ai_threshold : Nat) (explain : Bool)
    (col : ColumnSpec) : String × Option Expl :=
  let col_name := col.name
  let col_type := col.extract_type
  let col_syns := if use_synonyms then get_synonyms col_name else [col_name]
  let scan := directScan email_data col_name use_synonyms col_syns
  let matched_key := scan.1
  let direct_value := scan.2
  let directOk := match direct_value with
    | some v => pyTruthy v && pyStrip (pyStr v) ≠ ""
    | none => false
  if directOk then
    let dv := (direct_value.map pyStr).getD ""
    let exact_match := match matched_key with
      | some k => k ≠ "" && pyLower k == pyLower col_name
      | none => false
    let source_tag := if exact_match then "direct" else "synonym_direct"
    let matched_term := match matched_key with
      | some k => if k ≠ "" then k else col_name
      | none => col_name
    (pyStrip dv,
     if explain then
       some ⟨true, some source_tag, some matched_term, ["data_row"],
         some (String.mk (dv.data.take 50)), conf_of source_tag true, source_tag, none⟩
     else none)
  else
    let stdHit := match lookupk standard_fields col_name with
      | some sv => if sv ≠ "" then some sv else none
      | none => none
    match stdHit with
    | some sv =>
      (sv,
       if explain then
         some ⟨true, some "standard_field", some col_name, ["email_headers"],
           some (String.mk (sv.data.take 50)), 9, "standard_field", none⟩
       else none)
    | none =>
      let ruleHit := match lookupk rule_results col_name with
        | some rv => if rv ≠ "" then some rv else none
        | none => none
      match ruleHit with
      | some rv =>
        (rv,
         if explain then
           some ⟨true, some "rule", some col_name, ["rules"],
             some (String.mk (rv.data.take 50)), conf_of "rule" true, "rule", none⟩
         else none)
      | none =>
        let sm := smart_search_column email_data col_name col_type use_synonyms
        let st0 : String × Nat × String × Bool := (sm.1, sm.2.confidence, sm.2.source, sm.1 != "")
        let st :=
          if use_ai && ai_threshold ≠ 0 && st0.2.1 < ai_threshold then
            let ai := _ai_assist email_data col_name col_type
            if ai.1 ≠ "" then (ai.1, ai.2.confidence, ai.2.source, true) else st0
          else st0
        (st.1,
         if explain then
           some ⟨st.2.2.2, some st.2.2.1, some col_name, ["all"],
             (if st.2.2.2 then
               some ("Found " ++ squot ++ col_name ++ squot ++ " in email content")
             else none),
             st.2.1, st.2.2.1, some col_type⟩
         else none)

/-- The record/explanation update performed for one schema column. -/
def recordStep (email_data : EmailData) (standard_fields rule_results : List (String × String))
    (use_synonyms use_ai : Bool) (ai_threshold : Nat) (explain : Bool)
    (st : (List (String × String)) × (List (String × Expl))) (col : ColumnSpec) :
    (List (String × String)) × (List (String × Expl)) :=
  let res := resolveColumn email_data standard_fields rule_results use_synonyms use_ai
    ai_threshold explain col
  (setk st.1 col.name res.1,
   match res.2 with
   | some e => setk st.2 col.name e
   | none => st.2)

def email_to_record (email_data : EmailData) (schema : Schema) (rules : List Rule)
    (explain use_synonyms use_ai : Bool) (ai_threshold : Nat) :
    (List (String × String)) × (List (String × Expl)) :=
  let standard_fields := extract_email_fields email_data
  let rr := apply_keyword_rules_enhanced email_data rules explain
  schema.columns.foldl
    (recordStep email_data standard_fields rr.1 use_synonyms use_ai ai_threshold explain)
    ([], rr.2)

-- expand_order_numbers_to_rows ---------------------------------------------

def indexColNames : List String := ["order", "work order", "wo", "wo number", "order number"]

def findOrderColumn (schema : Schema) : Option String :=
  (schema.columns.find? (fun col => indexColNames.contains (pyLower col.name))).map (·.name)

/-- Content scanned by the expander (here `attachment_text` is joined
properly). -/
def expandContent (email_data : EmailData) : String :=
  edGetS email_data "subject" ++ "\n" ++ edGetS email_data "body" ++ "\n" ++
  String.intercalate " " (edGetList email_data "attachment_text")

/-- `{order_column}\s*[:\t|]\s*([^\n\t|]+)` (IGNORECASE | MULTILINE). -/
def expTablePat1 (oc : String) : RE :=
  reSeqs [relitCI oc, ws0, RE.cls (ccOneOf [':', '\t', '|']), ws0,
    RE.grp 1 (rePlus (RE.cls (.compl (ccOneOf ['\n', '\t', '|']))))]

/-- `{order_column}\s+(\d{6,})` (IGNORECASE | MULTILINE). -/
def expTablePat2 (oc : String) : RE :=
  reSeqs [relitCI oc, ws1, RE.grp 1 (RE.rep 6 none false (RE.cls .digit))]

/-- `\b(\d{6,})\b`. -/
def standalonePat1 : RE :=
  reSeqs [RE.bow, RE.grp 1 (RE.rep 6 none false (RE.cls .digit)), RE.bow]

/-- `\b(\d{6,}\s+[A-Z]{2,}\d*)\b`. -/
def standalonePat2 : RE :=
  reSeqs [RE.bow, RE.grp 1 (reSeqs [RE.rep 6 none false (RE.cls .digit), ws1,
    RE.rep 2 none false (RE.cls (.rng 'A' 'Z')), reStar (RE.cls .digit)]), RE.bow]

/-- One table match processed by the order-number harvest.  Python computes
`match.strip().split()[0]`; when a table match strips to whitespace only
(the first table pattern can capture a blank group, e.g. on a line
`Order:  |`), the `[0]` raises an IndexError, which aborts the whole
expansion call — modelled as `none`, absorbing for the rest of the loop. -/
def tableNumStep (acc : Option (List String)) (m : String) : Option (List String) :=
  match acc with
  | none => none
  | some acc =>
    match pySplitWs (pyStrip m) with
    | [] => none
    | tok :: _ =>
      let ov := pyStrip (splitHeadWsTabSemi tok)
      if ov ≠ "" && ov.length ≥ 4 && !acc.contains ov then some (acc ++ [ov]) else some acc

/-- The order-number harvest of `expand_order_numbers_to_rows`.  `none`
models the IndexError raised on a whitespace-only table match (see
`tableNumStep`); on success, the table numbers or, when there are none,
the standalone numeric patterns, deduplicated. -/
def findOrderNumbers (oc : String) (email_data : EmailData) : Option (List String) :=
  let all_content := expandContent email_data
  match (reFindall true (expTablePat1 oc) all_content.data ++
      reFindall true (expTablePat2 oc) all_content.data).foldl tableNumStep (some []) with
  | none => none
  | some tableNums =>
    let nums :=
      if tableNums.isEmpty then
        (reFindall false standalonePat1 all_content.data ++
         reFindall false standalonePat2 all_content.data).foldl (fun acc m =>
          let ov := pyStrip m
          if ov.length ≥ 6 && !acc.contains ov then acc ++ [ov] else acc) []
      else tableNums
    some (dedupFirst nums)

/-- `none` is the IndexError escape of the order-number harvest: on such
inputs the Python call raises and returns nothing at all. -/
def expand_order_numbers_to_rows (email_data : EmailData) (schema : Schema)
    (rules : List Rule) (explain use_synonyms use_ai : Bool) (ai_threshold : Nat) :
    Option (List ((List (String × String)) × (List (String × Expl)))) :=
  let excel_rows := edGetRows email_data "excel_rows"
  if !excel_rows.isEmpty then
    some (excel_rows.map (fun row_data =>
      let merged_data := dictUpdate email_data (row_data.map (fun e => (e.1, Val.str e.2)))
      email_to_record merged_data schema rules explain use_synonyms use_ai ai_threshold))
  else
    match findOrderColumn schema with
    | none =>
      some [email_to_record email_data schema rules explain use_synonyms use_ai ai_threshold]
    | some order_column =>
      match findOrderNumbers order_column email_data with
      | none => none
      | some order_numbers =>
        if order_numbers.length ≤ 1 then
          some [email_to_record email_data schema rules explain use_synonyms use_ai ai_threshold]
        else
          some (order_numbers.map (fun order_num =>
            let modified_data := setk email_data "_focus_order" (Val.str order_num)
            let re1 := email_to_record modified_data schema rules explain use_synonyms
              use_ai ai_threshold
            (setk re1.1 order_column order_num, re1.2)))

-- ===================================================================
-- table_merger.py
-- ===================================================================

abbrev Record := List (String × String)

def internalCols : List String := ["_source", "_source_file", "_sheet", "_focus_order"]

/-- Lexicographic string order by code points (Python `sorted` on str). -/
def charListLe : List Char → List Char → Bool
  | [], _ => true
  | _ :: _, [] => false
  | a :: xs, b :: ys => if a == b then charListLe xs ys else decide (a < b)

def normalizeRec (all_columns : List String) (r : Record) : Record :=
  all_columns.map (fun col => (col, (lookupk r col).getD ""))

def _find_index_column (index_column : String) (available : List String) : Option String :=
  let il := pyLower index_column
  match available.find? (fun col => pyLower col == il) with
  | some c => some c
  | none =>
    match available.find? (fun col => pyContains (pyLower col) il || pyContains il (pyLower col)) with
    | some c => some c
    | none =>
      available.find? (fun col => ((get_synonyms col).map pyLower).contains il)

def blankIdxVals : List String := ["", "none", "n/a", "null"]

/-- Body of the grouping loop of `_merge_by_index` (`setdefault` keeps
first-seen key order, appends within a group). -/
def groupStep (icn : String) (acc : List (String × List Record)) (r : Record) :
    List (String × List Record) :=
  let iv := pyStrip ((lookupk r icn).getD "")
  let key := if iv == "" || blankIdxVals.contains (pyLower iv) then "_no_index" else iv
  match lookupk acc key with
  | some grp => setk acc key (grp ++ [r])
  | none => acc ++ [(key, [r])]

/-- The grouping loop of `_merge_by_index`. -/
def groupByIndex (records : List Record) (icn : String) :
    List (String × List Record) :=
  records.foldl (groupStep icn) []

/-- `sum(1 for k, v in record.items() if v and str(v).strip())`. -/
def filledCount (r : Record) : Nat :=
  (r.filter (fun e => e.2 ≠ "" && pyStrip e.2 ≠ "")).length

/-- `record_scores.sort(reverse=True, key=lambda x: x[0])` : stable sort by
completeness, most complete first (stable sorts for a total preorder are
unique, so insertion sort matches Python). -/
def sortByScore (group : List Record) : List Record :=
  group.insertionSort (fun a b => filledCount b ≤ filledCount a)

/-- The per-column fold of `_merge_record_group` : first strictly longer
non-empty (stripped) value wins. -/
def bestValueGo : List Record → String → String → Nat → String
  | [], _, best, _ => best
  | r :: rest, col, best, bestLen =>
    let vs := pyStrip ((lookupk r col).getD "")
    if vs ≠ "" && vs.length > bestLen then bestValueGo rest col vs vs.length
    else bestValueGo rest col best bestLen

def _merge_record_group (group : List Record) (all_columns : List String)
    (index_col : String) : Record :=
  let sorted := sortByScore group
  let merged := all_columns.map (fun col => (col, bestValueGo sorted col "" 0))
  if (lookupk merged index_col).getD "" ≠ "" then merged
  else
    match sorted.findSome? (fun r =>
        let iv := (lookupk r index_col).getD ""
        if iv ≠ "" && pyStrip iv ≠ "" then some (pyStrip iv) else none) with
    | some iv => setk merged index_col iv
    | none => merged

def _merge_by_index (records : List Record) (icn : String)
    (all_columns : List String) : List Record :=
  (groupByIndex records icn).foldl (fun merged kv =>
    if kv.1 == "_no_index" then merged ++ kv.2.map (normalizeRec all_columns)
    else if kv.2.length == 1 then merged ++ [normalizeRec all_columns (kv.2.headD [])]
    else merged ++ [_merge_record_group kv.2 all_columns icn]) []

def merge_tables (all_records : List Record) (index_column : Option String)
    (schema_columns : Option (List String)) : List Record :=
  if all_records.isEmpty then []
  else
    let all_columns := dedupFirst
      (all_records.foldl (fun acc r => acc ++ r.map (·.1)) [] ++ (schema_columns.getD []))
    let all_columns := all_columns.filter (fun c => !internalCols.contains c)
    let all_columns := all_columns.insertionSort (fun a b => charListLe a.data b.data = true)
    let byIndex :=
      match index_column with
      | some ic =>
        if ic == "" then none
        else
          match _find_index_column ic all_columns with
          | some icn => some (_merge_by_index all_records icn all_columns)
          | none => none
      | none => none
    match byIndex with
    | some res => res
    | none => all_records.map (normalizeRec all_columns)

-- ===================================================================
-- Association-list lemmas
-- ===================================================================
theorem lookupk_nil {α : Type} (k : String) : lookupk ([] : List (String × α)) k = none := rfl

theorem lookupk_cons {α : Type} (e : String × α) (d : List (String × α)) (k : String) :
    lookupk (e :: d) k = if e.1 == k then some e.2 else lookupk d k := by
  unfold lookupk
  simp only [List.find?]
  by_cases h : e.1 == k <;> simp [h]

theorem lookupk_setk {α : Type} (d : List (String × α)) (k k2 : String) (v : α) :
    lookupk (setk d k v) k2 = if k2 = k then some v else lookupk d k2 := by
  induction d with
  | nil =>
    by_cases h : k2 = k
    · subst h; simp [setk, lookupk_cons]
    · simp [setk, lookupk_cons, lookupk_nil, h, beq_iff_eq]
      intro hk
      exact absurd hk.symm h
  | cons e rest ih =>
    simp only [setk]
    by_cases he : e.1 = k
    · subst he
      rw [if_pos (by simp), lookupk_cons, lookupk_cons]
      by_cases h2 : k2 = e.1
      · subst h2; simp
      · have hb : (e.1 == k2) = false := by
          simp only [beq_eq_false_iff_ne, ne_eq]
          exact fun hx => h2 hx.symm
        rw [hb]
        simp [h2]
    · rw [if_neg (by simpa [beq_iff_eq] using he), lookupk_cons, ih, lookupk_cons]
      by_cases h2 : e.1 = k2
      · have hb : (e.1 == k2) = true := by simp [h2]
        rw [hb]
        have hk2 : ¬ k2 = k := fun hx => he (h2.trans hx)
        simp [hk2]
      · have hb : (e.1 == k2) = false := by
          simp only [beq_eq_false_iff_ne, ne_eq]
          exact h2
        rw [hb]
        simp

theorem setk_keys_map {α : Type} (d : List (String × α)) (k : String) (v : α) :
    (setk d k v).map Prod.fst =
      if (d.map Prod.fst).contains k then d.map Prod.fst else d.map Prod.fst ++ [k] := by
  induction d with
  | nil => simp [setk]
  | cons e rest ih =>
    simp only [setk]
    by_cases he : e.1 = k
    · subst he
      simp [List.contains_cons]
    · rw [if_neg (by simpa [beq_iff_eq] using he), List.map_cons, ih, List.map_cons,
        List.contains_cons]
      have : (k == e.1) = false := by simpa [beq_iff_eq] using fun hx => he hx.symm
      rw [this]
      by_cases hc : (rest.map Prod.fst).contains k
      · rw [hc]; simp
      · rw [if_neg (by simpa using hc)]
        simp only [Bool.false_or]
        rw [if_neg (by simpa using hc)]
        simp

theorem mem_keys_setk {α : Type} (d : List (String × α)) (k : String) (v : α) (c : String) :
    c ∈ (setk d k v).map Prod.fst ↔ c ∈ d.map Prod.fst ∨ c = k := by
  rw [setk_keys_map]
  split
  · next h =>
    constructor
    · exact Or.inl
    · rintro (hc | rfl)
      · exact hc
      · simpa using h
  · simp

theorem nodup_keys_setk {α : Type} (d : List (String × α)) (k : String) (v : α)
    (h : (d.map Prod.fst).Nodup) : ((setk d k v).map Prod.fst).Nodup := by
  rw [setk_keys_map]
  split
  · exact h
  · next hany =>
    rw [List.nodup_append]
    refine ⟨h, List.nodup_singleton k, ?_⟩
    intro x hx hk
    have : x = k := by simpa using hk
    subst this
    exact hany (by simpa using hx)

-- C7 support: keys of the record fold --------------------------------------

theorem foldRecord_keys_mem (ed : EmailData) (sf rr : List (String × String))
    (syn ai : Bool) (t : Nat) (e : Bool) (cols : List ColumnSpec)
    (init : (List (String × String)) × (List (String × Expl))) (c : String) :
    c ∈ ((cols.foldl (recordStep ed sf rr syn ai t e) init).1.map Prod.fst) ↔
      c ∈ init.1.map Prod.fst ∨ c ∈ cols.map ColumnSpec.name := by
  induction cols generalizing init with
  | nil => simp
  | cons col rest ih =>
    rw [List.foldl_cons, ih]
    have hstep : (recordStep ed sf rr syn ai t e init col).1 =
        setk init.1 col.name (resolveColumn ed sf rr syn ai t e col).1 := rfl
    rw [hstep, mem_keys_setk]
    simp only [List.map_cons, List.mem_cons]
    tauto

theorem foldRecord_keys_nodup (ed : EmailData) (sf rr : List (String × String))
    (syn ai : Bool) (t : Nat) (e : Bool) (cols : List ColumnSpec)
    (init : (List (String × String)) × (List (String × Expl)))
    (h : (init.1.map Prod.fst).Nodup) :
    ((cols.foldl (recordStep ed sf rr syn ai t e) init).1.map Prod.fst).Nodup := by
  induction cols generalizing init with
  | nil => exact h
  | cons col rest ih =>
    rw [List.foldl_cons]
    exact ih _ (nodup_keys_setk _ _ _ h)

/-- C7: for every input unit, schema and rule list, the record returned by
`email_to_record` has exactly one entry per schema column: its key set is
the set of schema column names (so an unresolved column is present, holding
the empty string produced by the smart-search fallback, rather than being
absent), and keys are not duplicated. -/
theorem C7_record_shape (ed : EmailData) (schema : Schema) (rules : List Rule)
    (explain syn ai : Bool) (t : Nat) :
    (((email_to_record ed schema rules explain syn ai t).1.map Prod.fst).Nodup) ∧
    (∀ c, c ∈ (email_to_record ed schema rules explain syn ai t).1.map Prod.fst ↔
      c ∈ schema.columns.map ColumnSpec.name) := by
  unfold email_to_record
  constructor
  · exact foldRecord_keys_nodup _ _ _ _ _ _ _ _ _ (by simp)
  · intro c
    rw [foldRecord_keys_mem]
    simp

-- C9 -----------------------------------------------------------------------

theorem resolveColumn_no_ai (ed : EmailData) (sf rr : List (String × String))
    (syn : Bool) (t1 t2 : Nat) (e : Bool) (col : ColumnSpec) :
    resolveColumn ed sf rr syn false t1 e col = resolveColumn ed sf rr syn false t2 e col := by
  unfold resolveColumn
  simp only [Bool.false_and]

/-- C9: with AI assist disabled the per-unit resolution is a pure function
of its inputs: the embedding is deterministic by construction, and the
`ai_threshold` argument (the only remaining knob of the AI path) cannot
influence the result. -/
theorem C9_determinism (ed : EmailData) (schema : Schema) (rules : List Rule)
    (explain syn : Bool) (t1 t2 : Nat) :
    email_to_record ed schema rules explain syn false t1 =
      email_to_record ed schema rules explain syn false t2 := by
  simp only [email_to_record]
  have hstep : recordStep ed (extract_email_fields ed)
      (apply_keyword_rules_enhanced ed rules explain).1 syn false t1 explain =
      recordStep ed (extract_email_fields ed)
        (apply_keyword_rules_enhanced ed rules explain).1 syn false t2 explain := by
    funext st col
    unfold recordStep
    rw [resolveColumn_no_ai ed _ _ syn t1 t2 explain col]
  rw [hstep]

-- C2 -----------------------------------------------------------------------

/-- C2: failing input for the non-booleanization property.  On content
containing the line `Order: Yes`, the number extractor for the number-typed
column `Order` returns the literal string `Yes` through its label strategy,
although its own docstring promises it never returns `Yes`; the smart-search
number path propagates that value. -/
theorem C2_number_extraction_booleanizes :
    _extract_number_only "Order" "Order: Yes" = "Yes" ∧
    (smart_search_column [("body", Val.str "Order: Yes")] "Order" "number" true).1 = "Yes" := by
  exact ⟨rfl, rfl⟩

-- C3 counterexample --------------------------------------------------------

/-- C3: counterexample to the claimed bound.  A smart-search fallback
resolution can carry confidence 8 (the `smart_date` path reusing the unit's
own date field), which is strictly above the synonym_direct level 7, both at
the `smart_search_column` level and in the explanation that
`email_to_record` attaches on its priority-4 path. -/
theorem C3_smart_date_confidence_counterexample :
    ((smart_search_column [("date", Val.str "2024-01-01")] "Due Date" "date" false).2.confidence = 8 ∧
     ¬ ((smart_search_column [("date", Val.str "2024-01-01")] "Due Date" "date" false).2.confidence ≤ 7)) ∧
    (lookupk (email_to_record [("date", Val.str "2024-01-01")]
        ⟨[⟨"Due Date", "date"⟩]⟩ [] true false false 0).2 "Due Date").map Expl.confidence = some 8 := by
  refine ⟨⟨rfl, by decide⟩, by decide⟩

-- C10 ----------------------------------------------------------------------

/-- C10: yesno totality.  For every input unit and column name,
`smart_search_column` with extract type `yesno` returns exactly
`("Yes", smart_yesno 5)` when the lowercased column name occurs with word
boundaries in the (lowercased) searched content, and `("No", smart_yesno 5)`
otherwise; in particular the value is never the empty string. -/
theorem C10_yesno_totality (ed : EmailData) (col : String) (syn : Bool) :
    smart_search_column ed col "yesno" syn =
      (if wordHit (pyStrip (pyLower col)) (pyLower (smartSearchContent ed)) then "Yes" else "No",
       ⟨"smart_yesno", 5⟩) ∧
    (smart_search_column ed col "yesno" syn).1 ≠ "" := by
  have h : smart_search_column ed col "yesno" syn =
      (if wordHit (pyStrip (pyLower col)) (pyLower (smartSearchContent ed)) then "Yes" else "No",
       ⟨"smart_yesno", 5⟩) := by
    simp [smart_search_column]
    split <;> rfl
  refine ⟨h, ?_⟩
  rw [h]
  split <;> simp

theorem smartNumberBranch_conf_le (names : List String) (c : String) :
    (smartNumberBranch names c).2.confidence ≤ 8 := by
  unfold smartNumberBranch
  split <;> simp [mkMeta]

theorem smartMixedBranch_conf_le (names : List String) (c : String) :
    (smartMixedBranch names c).2.confidence ≤ 8 := by
  unfold smartMixedBranch
  repeat' split
  all_goals simp [mkMeta]

theorem smartDateBranch_conf_le (ed : EmailData) (c : String) :
    (smartDateBranch ed c).2.confidence ≤ 8 := by
  unfold smartDateBranch
  repeat' split
  all_goals simp [mkMeta]

theorem smartTextBranch_conf_le (names : List String) (c : String) :
    (smartTextBranch names c).2.confidence ≤ 8 := by
  unfold smartTextBranch
  repeat' split
  all_goals simp [mkMeta]

theorem autoNumberHit_conf_le (cn ac cl : String) (r : String × SMeta)
    (h : autoNumberHit cn ac cl = some r) : r.2.confidence ≤ 8 := by
  unfold autoNumberHit at h
  dsimp only at h
  split at h
  · split at h
    · cases h; simp [mkMeta]
    · cases h; simp [mkMeta]
  · cases h

theorem autoTimeHit_conf_le (ac cl : String) (r : String × SMeta)
    (h : autoTimeHit ac cl = some r) : r.2.confidence ≤ 8 := by
  unfold autoTimeHit at h
  split at h
  · rcases Option.map_eq_some'.mp h with ⟨v, hv, rfl⟩
    simp [mkMeta]
  · cases h

theorem autoDateHit_conf_le (ed : EmailData) (ac cl : String) (r : String × SMeta)
    (h : autoDateHit ed ac cl = some r) : r.2.confidence ≤ 8 := by
  unfold autoDateHit at h
  split at h
  · split at h
    · cases h; simp [mkMeta]
    · split at h
      · cases h; simp [mkMeta]
      · cases h
  · cases h

theorem autoAmountHit_conf_le (ac cl : String) (r : String × SMeta)
    (h : autoAmountHit ac cl = some r) : r.2.confidence ≤ 8 := by
  unfold autoAmountHit at h
  split at h
  · rcases Option.map_eq_some'.mp h with ⟨v, hv, rfl⟩
    simp [mkMeta]
  · cases h

theorem autoPriorityHit_conf_le (acl cl : String) (r : String × SMeta)
    (h : autoPriorityHit acl cl = some r) : r.2.confidence ≤ 8 := by
  unfold autoPriorityHit at h
  split at h
  · split at h
    · cases h; simp [mkMeta]
    · split at h
      · cases h; simp [mkMeta]
      · cases h; simp [mkMeta]
  · cases h

theorem autoStatusHit_conf_le (acl cl : String) (r : String × SMeta)
    (h : autoStatusHit acl cl = some r) : r.2.confidence ≤ 8 := by
  unfold autoStatusHit at h
  split at h
  · split at h
    · cases h; simp [mkMeta]
    · split at h
      · cases h; simp [mkMeta]
      · split at h
        · cases h; simp [mkMeta]
        · split at h
          · cases h; simp [mkMeta]
          · cases h
  · cases h

theorem autoLabelHit_conf_le (names : List String) (ac : String) (r : String × SMeta)
    (h : autoLabelHit names ac = some r) : r.2.confidence ≤ 8 := by
  unfold autoLabelHit at h
  rcases Option.map_eq_some'.mp h with ⟨v, hv, rfl⟩
  simp [mkMeta]

theorem autoFirstWordHit_conf_le (cn ac : String) (r : String × SMeta)
    (h : autoFirstWordHit cn ac = some r) : r.2.confidence ≤ 8 := by
  unfold autoFirstWordHit at h
  dsimp only at h
  split at h
  · split at h
    · rcases Option.map_eq_some'.mp h with ⟨v, hv, rfl⟩
      simp [mkMeta]
    · cases h
  · cases h

theorem autoKeywordFinal_conf_le (cn acl : String) :
    (autoKeywordFinal cn acl).2.confidence ≤ 8 := by
  unfold autoKeywordFinal
  repeat' split
  all_goals try simp [mkMeta]
  all_goals (split <;> simp [mkMeta])

theorem smartAutoBranch_conf_le (ed : EmailData) (cn : String) (names : List String)
    (ac acl cl : String) :
    (smartAutoBranch ed cn names ac acl cl).2.confidence ≤ 8 := by
  unfold smartAutoBranch
  split
  · next r h => exact autoNumberHit_conf_le _ _ _ r h
  split
  · next r h => exact autoTimeHit_conf_le _ _ r h
  split
  · next r h => exact autoDateHit_conf_le _ _ _ r h
  split
  · next r h => exact autoAmountHit_conf_le _ _ r h
  split
  · next r h => exact autoPriorityHit_conf_le _ _ r h
  split
  · next r h => exact autoStatusHit_conf_le _ _ r h
  split
  · next r h => exact autoLabelHit_conf_le _ _ r h
  split
  · next r h => exact autoFirstWordHit_conf_le _ _ r h
  · exact autoKeywordFinal_conf_le _ _

theorem smart_search_column_conf_le (ed : EmailData) (cn ty : String) (syn : Bool) :
    (smart_search_column ed cn ty syn).2.confidence ≤ 8 := by
  unfold smart_search_column
  dsimp only
  split
  · exact smartNumberBranch_conf_le _ _
  split
  · exact smartMixedBranch_conf_le _ _
  split
  · exact smartDateBranch_conf_le _ _
  split
  · split <;> simp [mkMeta]
  split
  · split <;> simp [mkMeta]
  split
  · split <;> simp [mkMeta]
  split
  · exact smartTextBranch_conf_le _ _
  · exact smartAutoBranch_conf_le _ _ _ _ _ _

-- C1 support ---------------------------------------------------------------

theorem lookupk_isSome_any {α : Type} (d : List (String × α)) (k : String) :
    (lookupk d k).isSome = d.any (fun e => e.1 == k) := by
  induction d with
  | nil => rfl
  | cons e rest ih =>
    rw [lookupk_cons, List.any_cons]
    by_cases he : e.1 == k <;> simp [he, ih]

theorem lookupk_eq_none_iff {α : Type} (d : List (String × α)) (k : String) :
    lookupk d k = none ↔ ¬ k ∈ d.map Prod.fst := by
  induction d with
  | nil => simp [lookupk_nil]
  | cons e rest ih =>
    rw [lookupk_cons]
    by_cases he : e.1 == k
    · have h2 : e.1 = k := by simpa using he
      simp [he, h2]
    · have h2 : ¬ e.1 = k := by simpa using he
      rw [if_neg he, ih]
      simp only [List.map_cons, List.mem_cons]
      constructor
      · intro h hmem
        rcases hmem with h1 | h3
        · exact h2 h1.symm
        · exact h h3
      · intro h h3
        exact h (Or.inr h3)

theorem keywordScan_isSome (e : Bool) (c n : String) (wb : Bool) (kws : List String) :
    (keywordScan e c n wb kws).isSome = (keywordScan false c n wb kws).isSome := by
  induction kws with
  | nil => rfl
  | cons kw rest ih =>
    by_cases hwb : wb
    · subst hwb
      simp only [keywordScan, if_true]
      cases reSearchL false (reSeqs [RE.bow, relit (pyLower kw), RE.bow]) n.data <;>
        simp [ih]
    · rw [Bool.not_eq_true] at hwb
      subst hwb
      simp only [keywordScan, Bool.false_eq_true, if_false]
      by_cases hc : pyContains n (pyLower kw) <;> simp [hc, ih]

theorem ruleMatchInfo_isSome (ed : EmailData) (e : Bool) (r : Rule) :
    (ruleMatchInfo ed e r).isSome = ruleMatches ed r := by
  unfold ruleMatches ruleMatchInfo
  dsimp only
  have hk := keywordScan_isSome e (get_search_content ed r.search_in)
    (normalize_text (get_search_content ed r.search_in)) r.word_boundary r.keywords
  rcases h1 : keywordScan e (get_search_content ed r.search_in)
      (normalize_text (get_search_content ed r.search_in)) r.word_boundary r.keywords with _ | v1
  · rw [h1] at hk
    rcases h2 : keywordScan false (get_search_content ed r.search_in)
        (normalize_text (get_search_content ed r.search_in)) r.word_boundary r.keywords with _ | v2
    · rcases r.regex with _ | ⟨pstr, pat⟩
      · simp
      · by_cases hp : pstr == ""
        · simp [hp]
        · simp only [hp, if_false]
          cases reSearchL false pat (get_search_content ed r.search_in).data <;> simp
    · rw [h2] at hk
      simp at hk
  · rw [h1] at hk
    rcases h2 : keywordScan false (get_search_content ed r.search_in)
        (normalize_text (get_search_content ed r.search_in)) r.word_boundary r.keywords with _ | v2
    · rw [h2] at hk
      simp at hk
    · simp

theorem applyOneRule_fst (ed : EmailData) (e : Bool)
    (st : (List (String × String)) × (List (String × Expl))) (r : Rule) :
    (applyOneRule ed e st r).1 =
      if st.1.any (fun x => x.1 == r.column) then st.1
      else setk st.1 r.column (if ruleMatches ed r then r.value else r.unmatched_value) := by
  unfold applyOneRule
  split
  · simp
  · dsimp only
    rw [ruleMatchInfo_isSome]

theorem applyRules_foldl_lookup (ed : EmailData) (e : Bool) (rs : List Rule)
    (st : (List (String × String)) × (List (String × Expl))) (col : String) :
    lookupk (rs.foldl (applyOneRule ed e) st).1 col =
      match lookupk st.1 col with
      | some v => some v
      | none => (rs.find? (fun r => r.column == col)).map
          (fun r => if ruleMatches ed r then r.value else r.unmatched_value) := by
  induction rs generalizing st with
  | nil => rcases h : lookupk st.1 col with _ | v <;> simp [h]
  | cons r rest ih =>
    rw [List.foldl_cons, ih]
    by_cases hskip : st.1.any (fun x => x.1 == r.column)
    · have hst : (applyOneRule ed e st r).1 = st.1 := by rw [applyOneRule_fst, if_pos hskip]
      rw [hst]
      rcases hl : lookupk st.1 col with _ | v
      · have hcol : ¬ r.column = col := by
          intro hc
          subst hc
          rw [← lookupk_isSome_any] at hskip
          rw [hl] at hskip
          simp at hskip
        have : (r.column == col) = false := by simpa using hcol
        simp [List.find?, this]
      · simp
    · have hst : (applyOneRule ed e st r).1 =
          setk st.1 r.column (if ruleMatches ed r then r.value else r.unmatched_value) := by
        rw [applyOneRule_fst, if_neg hskip]
      rw [hst]
      by_cases hcol : col = r.column
      · rw [lookupk_setk, if_pos hcol]
        have hl : lookupk st.1 col = none := by
          rcases hx : lookupk st.1 col with _ | v
          · rfl
          · exfalso
            apply hskip
            rw [← lookupk_isSome_any, ← hcol, hx]
            rfl
        rw [hl]
        have hbeq : (r.column == col) = true := by simp [hcol]
        simp [List.find?, hbeq]
      · rw [lookupk_setk, if_neg hcol]
        rcases hl : lookupk st.1 col with _ | v
        · have : (r.column == col) = false := by
            simp only [beq_eq_false_iff_ne, ne_eq]
            exact fun hx => hcol hx.symm
          simp [List.find?, this]
        · simp

theorem keyLe_total (x y : Int × Int) : keyLe x y = true ∨ keyLe y x = true := by
  unfold keyLe
  simp only [Bool.or_eq_true, Bool.and_eq_true, decide_eq_true_eq, beq_iff_eq]
  omega

theorem keyLe_trans (x y z : Int × Int) (h1 : keyLe x y = true) (h2 : keyLe y z = true) :
    keyLe x z = true := by
  unfold keyLe at *
  simp only [Bool.or_eq_true, Bool.and_eq_true, decide_eq_true_eq, beq_iff_eq] at *
  omega

/-- C1: rule evaluation order and global first-match-wins.  For a duplicate
free rule list, the sorted order is by priority descending and, within equal
priority, declaration order (`firstIndexOf` is the declaration position);
and for every column, the result of the whole rule pass is exactly the
output of the first rule in that order that targets the column (its `value`
on a match, its `unmatched_value` otherwise) — every later rule targeting
the same column is skipped, so at most one rule determines each column. -/
theorem C1_rule_order_first_match (ed : EmailData) (rules : List Rule) (e : Bool)
    (hnd : rules.Nodup) :
    ((sortRules rules).Perm rules ∧
     (sortRules rules).Pairwise (fun a b =>
        b.priority < a.priority ∨
        (b.priority = a.priority ∧ firstIndexOf rules a < firstIndexOf rules b))) ∧
    ∀ col, lookupk (apply_keyword_rules_enhanced ed rules e).1 col =
      ((sortRules rules).find? (fun r => r.column == col)).map
        (fun r => if ruleMatches ed r then r.value else r.unmatched_value) := by
  have hperm : (sortRules rules).Perm rules := List.perm_insertionSort _ rules
  constructor
  · constructor
    · exact hperm
    · haveI hTot : IsTotal Rule (fun a b => keyLe (ruleKey rules b) (ruleKey rules a) = true) :=
        ⟨fun a b => keyLe_total (ruleKey rules b) (ruleKey rules a)⟩
      haveI hTrans : IsTrans Rule (fun a b => keyLe (ruleKey rules b) (ruleKey rules a) = true) :=
        ⟨fun a b c h1 h2 => keyLe_trans (ruleKey rules c) (ruleKey rules b) (ruleKey rules a) h2 h1⟩
      have hsorted : (sortRules rules).Pairwise
          (fun a b => keyLe (ruleKey rules b) (ruleKey rules a) = true) :=
        List.sorted_insertionSort
          (fun (a b : Rule) => keyLe (ruleKey rules b) (ruleKey rules a) = true) rules
      have hndS : (sortRules rules).Nodup := hperm.symm.nodup hnd
      have hcomb := hsorted.and hndS
      apply List.Pairwise.imp_of_mem ?_ hcomb
      intro a b ha hb hr
      have haR : a ∈ rules := hperm.mem_iff.mp ha
      have hbR : b ∈ rules := hperm.mem_iff.mp hb
      obtain ⟨hk, hne⟩ := hr
      unfold keyLe ruleKey at hk
      simp only [Bool.or_eq_true, Bool.and_eq_true, decide_eq_true_eq, beq_iff_eq] at hk
      rcases hk with hlt | ⟨heq, hle⟩
      · exact Or.inl hlt
      · refine Or.inr ⟨heq, ?_⟩
        have hidx : firstIndexOf rules a ≠ firstIndexOf rules b := by
          intro hx
          exact hne ((List.indexOf_inj haR hbR).mp hx)
        unfold firstIndexOf at *
        simp only [Int.ofNat_eq_natCast] at hle
        omega
  · intro col
    unfold apply_keyword_rules_enhanced
    rw [applyRules_foldl_lookup]
    simp [lookupk_nil]

/-- C1 witness: the theorem applied at a concrete duplicate-free rule list. -/
theorem C1_rule_order_first_match_witness :
    ([Rule.mk "C" ["alpha"] none "A1" "" ["all"] true 0,
      Rule.mk "C" ["beta"] none "B1" "" ["all"] true 5].Nodup) ∧
    (((sortRules [Rule.mk "C" ["alpha"] none "A1" "" ["all"] true 0,
        Rule.mk "C" ["beta"] none "B1" "" ["all"] true 5]).Perm
          [Rule.mk "C" ["alpha"] none "A1" "" ["all"] true 0,
           Rule.mk "C" ["beta"] none "B1" "" ["all"] true 5] ∧
      (sortRules [Rule.mk "C" ["alpha"] none "A1" "" ["all"] true 0,
        Rule.mk "C" ["beta"] none "B1" "" ["all"] true 5]).Pairwise (fun a b =>
          b.priority < a.priority ∨
          (b.priority = a.priority ∧
            firstIndexOf [Rule.mk "C" ["alpha"] none "A1" "" ["all"] true 0,
              Rule.mk "C" ["beta"] none "B1" "" ["all"] true 5] a <
            firstIndexOf [Rule.mk "C" ["alpha"] none "A1" "" ["all"] true 0,
              Rule.mk "C" ["beta"] none "B1" "" ["all"] true 5] b))) ∧
     ∀ col, lookupk (apply_keyword_rules_enhanced [("body", Val.str "alpha beta")]
        [Rule.mk "C" ["alpha"] none "A1" "" ["all"] true 0,
         Rule.mk "C" ["beta"] none "B1" "" ["all"] true 5] false).1 col =
      ((sortRules [Rule.mk "C" ["alpha"] none "A1" "" ["all"] true 0,
          Rule.mk "C" ["beta"] none "B1" "" ["all"] true 5]).find? (fun r => r.column == col)).map
        (fun r => if ruleMatches [("body", Val.str "alpha beta")] r then r.value
          else r.unmatched_value)) :=
  ⟨by decide, C1_rule_order_first_match [("body", Val.str "alpha beta")]
    [Rule.mk "C" ["alpha"] none "A1" "" ["all"] true 0,
     Rule.mk "C" ["beta"] none "B1" "" ["all"] true 5] false (by decide)⟩

-- C4 support ---------------------------------------------------------------

theorem dedupFirstGo_not_mem_seen (l : List String) :
    ∀ (seen : List String) (x : String), x ∈ dedupFirstGo seen l → ¬ seen.contains x := by
  induction l with
  | nil => intro seen x hx; cases hx
  | cons y rest ih =>
    intro seen x hx
    unfold dedupFirstGo at hx
    split at hx
    · exact ih seen x hx
    · rcases List.mem_cons.mp hx with rfl | hx2
      · next hy => simpa using hy
      · have := ih (y :: seen) x hx2
        intro hc
        exact this (by simp [List.contains_cons]; right; simpa using hc)

theorem dedupFirstGo_nodup (l : List String) : ∀ seen, (dedupFirstGo seen l).Nodup := by
  induction l with
  | nil => intro seen; exact List.nodup_nil
  | cons y rest ih =>
    intro seen
    unfold dedupFirstGo
    split
    · exact ih seen
    · refine List.Nodup.cons ?_ (ih (y :: seen))
      intro hy
      have := dedupFirstGo_not_mem_seen rest (y :: seen) y hy
      simp [List.contains_cons] at this

theorem dedupFirst_nodup (l : List String) : (dedupFirst l).Nodup :=
  dedupFirstGo_nodup l []

/-- C4: expansion completeness.  For a unit without sub-rows whose schema
declares an index-like column, whenever the identifier harvest completes
(it aborts with an IndexError, `none`, on a whitespace-only table match),
the harvested identifiers are pairwise distinct; when more than one is
found the expander emits exactly one record per identifier and force-writes
the i-th identifier into the i-th record's index column (overriding
whatever the record builder produced); with zero or one identifier it
returns the single ordinary record. -/
theorem C4_expansion_completeness (ed : EmailData) (schema : Schema) (rules : List Rule)
    (e syn ai : Bool) (t : Nat) (oc : String) (ids : List String)
    (hrows : edGetRows ed "excel_rows" = [])
    (hoc : findOrderColumn schema = some oc)
    (hids : findOrderNumbers oc ed = some ids) :
    ids.Nodup ∧
    (1 < ids.length →
      ∃ out, expand_order_numbers_to_rows ed schema rules e syn ai t = some out ∧
        out.length = ids.length ∧
        out.map (fun p => lookupk p.1 oc) = ids.map some) ∧
    (ids.length ≤ 1 →
      expand_order_numbers_to_rows ed schema rules e syn ai t =
        some [email_to_record ed schema rules e syn ai t]) := by
  have hnodup : ids.Nodup := by
    unfold findOrderNumbers at hids
    dsimp only at hids
    split at hids
    · cases hids
    · cases hids
      exact dedupFirst_nodup _
  have hexp : expand_order_numbers_to_rows ed schema rules e syn ai t =
      (if ids.length ≤ 1 then
        some [email_to_record ed schema rules e syn ai t]
      else
        some (ids.map (fun order_num =>
          let modified_data := setk ed "_focus_order" (Val.str order_num)
          let re1 := email_to_record modified_data schema rules e syn ai t
          (setk re1.1 oc order_num, re1.2)))) := by
    unfold expand_order_numbers_to_rows
    rw [hrows]
    simp only [List.isEmpty_nil, Bool.not_true, Bool.false_eq_true, if_false, hoc, hids]
  refine ⟨hnodup, ?_, ?_⟩
  · intro hlen
    rw [hexp, if_neg (by omega)]
    refine ⟨_, rfl, by simp, ?_⟩
    rw [List.map_map]
    apply List.map_congr_left
    intro id _
    simp [lookupk_setk]
  · intro hlen
    rw [hexp, if_pos hlen]

/-- C4 witness: a unit whose body lists two order numbers, with an `Order`
schema column; the harvest completes with two distinct identifiers. -/
theorem C4_expansion_completeness_witness :
    (edGetRows [("body", Val.str "Order: 111111\nOrder: 222222")] "excel_rows" = [] ∧
     findOrderColumn ⟨[⟨"Order", "text"⟩]⟩ = some "Order" ∧
     findOrderNumbers "Order" [("body", Val.str "Order: 111111\nOrder: 222222")] =
       some ["111111", "222222"] ∧
     1 < (["111111", "222222"] : List String).length) ∧
    (∃ out, expand_order_numbers_to_rows [("body", Val.str "Order: 111111\nOrder: 222222")]
        ⟨[⟨"Order", "text"⟩]⟩ [] false false false 0 = some out ∧
      out.length = (["111111", "222222"] : List String).length ∧
      out.map (fun p => lookupk p.1 "Order") = (["111111", "222222"] : List String).map some) :=
  ⟨⟨rfl, rfl, by decide, by decide⟩,
   ((C4_expansion_completeness [("body", Val.str "Order: 111111\nOrder: 222222")]
      ⟨[⟨"Order", "text"⟩]⟩ [] false false false 0 "Order" ["111111", "222222"]
      rfl rfl (by decide)).2.1 (by decide))⟩

-- C8 support ---------------------------------------------------------------

theorem lookupk_dictUpdate {α : Type} (d upd : List (String × α)) (k : String)
    (hnd : (upd.map Prod.fst).Nodup) :
    lookupk (dictUpdate d upd) k =
      match lookupk upd k with
      | some v => some v
      | none => lookupk d k := by
  induction upd generalizing d with
  | nil => simp [dictUpdate, lookupk_nil]
  | cons e rest ih =>
    have hndr : (rest.map Prod.fst).Nodup := by
      simp only [List.map_cons, List.nodup_cons] at hnd
      exact hnd.2
    have hnotin : ¬ e.1 ∈ rest.map Prod.fst := by
      simp only [List.map_cons, List.nodup_cons] at hnd
      exact hnd.1
    have hstep : dictUpdate d (e :: rest) = dictUpdate (setk d e.1 e.2) rest := rfl
    rw [hstep, ih _ hndr, lookupk_cons]
    by_cases hk : e.1 == k
    · have hk2 : e.1 = k := by simpa using hk
      have hrest : lookupk rest k = none := by
        rw [lookupk_eq_none_iff]
        rw [hk2] at hnotin
        exact hnotin
      rw [hrest, hk, if_pos rfl, lookupk_setk, if_pos hk2.symm]
    · have hkf : (e.1 == k) = false := by simpa using hk
      have hk2 : ¬ k = e.1 := by
        intro hx
        simp [hx] at hkf
      rw [hkf]
      simp only [Bool.false_eq_true, if_false]
      rcases hrest : lookupk rest k with _ | v
      · simp only
        rw [lookupk_setk, if_neg hk2]
      · simp only

theorem lookupk_map_val (row : List (String × String)) (k : String) :
    lookupk (row.map (fun p => (p.1, Val.str p.2))) k = (lookupk row k).map Val.str := by
  induction row with
  | nil => simp [lookupk_nil]
  | cons e rest ih =>
    simp only [List.map_cons, lookupk_cons]
    by_cases hk : e.1 == k <;> simp [hk, ih]

/-- C8: sub-row expansion frame property.  When a unit carries `excel_rows`
the expander returns exactly one record per sub-row, each built by the
record builder on the parent unit overlaid with that sub-row; and for a
sub-row with duplicate-free keys, the overlaid unit maps every key the
sub-row defines to the sub-row's value and every other key to the parent's
value — no parent field is dropped. -/
theorem C8_subrow_frame (ed : EmailData) (schema : Schema) (rules : List Rule)
    (e syn ai : Bool) (t : Nat)
    (hrows : edGetRows ed "excel_rows" ≠ []) :
    (expand_order_numbers_to_rows ed schema rules e syn ai t =
      some ((edGetRows ed "excel_rows").map (fun row =>
        email_to_record (dictUpdate ed (row.map (fun p => (p.1, Val.str p.2))))
          schema rules e syn ai t))) ∧
    ∀ (row : List (String × String)), (row.map Prod.fst).Nodup → ∀ k,
      edLookup (dictUpdate ed (row.map (fun p => (p.1, Val.str p.2)))) k =
        match lookupk row k with
        | some v => some (Val.str v)
        | none => edLookup ed k := by
  constructor
  · unfold expand_order_numbers_to_rows
    rw [if_pos (by simpa using hrows)]
  · intro row hndrow k
    have hed : ∀ (d : EmailData) (k2 : String), edLookup d k2 = lookupk d k2 := fun _ _ => rfl
    rw [hed, lookupk_dictUpdate _ _ _ (by
      rw [List.map_map]
      have : (Prod.fst ∘ fun p : String × String => (p.1, Val.str p.2)) = Prod.fst := by
        funext p
        rfl
      rw [this]
      exact hndrow), lookupk_map_val]
    rcases lookupk row k with _ | v <;> rfl

/-- C8 witness: a parent unit with one sub-row. -/
theorem C8_subrow_frame_witness :
    (edGetRows [("subject", Val.str "s"), ("excel_rows", Val.rows [[("A", "1")]])]
        "excel_rows" ≠ [] ∧
     ([("A", "1")].map (Prod.fst (α := String) (β := String))).Nodup) ∧
    (expand_order_numbers_to_rows [("subject", Val.str "s"), ("excel_rows", Val.rows [[("A", "1")]])]
        ⟨[⟨"A", "text"⟩]⟩ [] false false false 0 =
      some ((edGetRows [("subject", Val.str "s"), ("excel_rows", Val.rows [[("A", "1")]])] "excel_rows").map
        (fun row =>
          email_to_record
            (dictUpdate [("subject", Val.str "s"), ("excel_rows", Val.rows [[("A", "1")]])]
              (row.map (fun p => (p.1, Val.str p.2))))
            ⟨[⟨"A", "text"⟩]⟩ [] false false false 0))) :=
  ⟨⟨by decide, by decide⟩,
   (C8_subrow_frame [("subject", Val.str "s"), ("excel_rows", Val.rows [[("A", "1")]])]
      ⟨[⟨"A", "text"⟩]⟩ [] false false false 0 (by decide)).1⟩

-- C6 support ---------------------------------------------------------------

theorem foldRecord_lookup_uniform (ed : EmailData) (sf rr : List (String × String))
    (syn ai : Bool) (t : Nat) (e : Bool) (cols : List ColumnSpec)
    (init : (List (String × String)) × (List (String × Expl))) (n : String) (V : String)
    (hall : ∀ col ∈ cols, col.name = n → (resolveColumn ed sf rr syn ai t e col).1 = V) :
    lookupk ((cols.foldl (recordStep ed sf rr syn ai t e) init).1) n =
      if cols.any (fun c => c.name == n) then some V else lookupk init.1 n := by
  induction cols generalizing init with
  | nil => simp
  | cons col rest ih =>
    rw [List.foldl_cons, ih _ (fun c hc hn => hall c (List.mem_cons_of_mem col hc) hn)]
    have hstep : (recordStep ed sf rr syn ai t e init col).1 =
        setk init.1 col.name (resolveColumn ed sf rr syn ai t e col).1 := rfl
    by_cases hname : col.name = n
    · have hV := hall col (List.mem_cons_self col rest) hname
      rw [List.any_cons]
      have hb : (col.name == n) = true := by simp [hname]
      rw [hb]
      simp only [Bool.true_or, if_true]
      by_cases hrest : rest.any (fun c => c.name == n)
      · rw [if_pos hrest]
      · rw [if_neg hrest, hstep, hV, lookupk_setk, if_pos hname.symm]
    · rw [List.any_cons]
      have hb : (col.name == n) = false := by
        simp only [beq_eq_false_iff_ne, ne_eq]
        exact hname
      rw [hb]
      simp only [Bool.false_or]
      by_cases hrest : rest.any (fun c => c.name == n)
      · rw [if_pos hrest, if_pos hrest]
      · rw [if_neg hrest, if_neg hrest, hstep, lookupk_setk,
          if_neg (fun hx => hname hx.symm)]

/-- C6 (amended): direct-value resolution follows the first key the
priority-1 scan accepts.  If the scan of the unit's keys for a schema
column returns a value that is populated (truthy and non-blank after
strip), then the record resolves that column to exactly that stripped
value — in particular a matching rule cannot override it. -/
theorem C6_direct_value_first_match (ed : EmailData) (schema : Schema) (rules : List Rule)
    (e syn ai : Bool) (t : Nat) (cname : String) (dval : Val)
    (hc : cname ∈ schema.columns.map ColumnSpec.name)
    (hscan : (directScan ed cname syn (if syn then get_synonyms cname else [cname])).2 = some dval)
    (htr : pyTruthy dval = true)
    (hne : pyStrip (pyStr dval) ≠ "") :
    lookupk (email_to_record ed schema rules e syn ai t).1 cname =
      some (pyStrip (pyStr dval)) := by
  unfold email_to_record
  rw [foldRecord_lookup_uniform _ _ _ _ _ _ _ _ _ _ (pyStrip (pyStr dval)) ?hall]
  case hall =>
    intro col hcol hn
    unfold resolveColumn
    rw [hn]
    dsimp only
    rw [hscan]
    simp [htr, hne]
  · rw [if_pos]
    rw [List.any_eq_true]
    rcases List.mem_map.mp hc with ⟨col, hcol, hname⟩
    exact ⟨col, hcol, by simp [hname]⟩

/-- C6 counterexample: the original claim fails when an earlier unit key
matches the column with a blank value.  Here the unit holds the key `Order`
with the populated value `123`, a rule targeting `Order` matches, yet the
record resolves `Order` to the rule's value because the scan stopped at the
earlier blank key `ORDER`. -/
theorem C6_direct_shadowing_counterexample :
    edLookup [("body", Val.str "invoice"), ("ORDER", Val.str ""), ("Order", Val.str "123")]
        "Order" = some (Val.str "123") ∧
    ruleMatches [("body", Val.str "invoice"), ("ORDER", Val.str ""), ("Order", Val.str "123")]
        (Rule.mk "Order" ["invoice"] none "FromRule" "" ["all"] true 0) = true ∧
    lookupk (email_to_record
        [("body", Val.str "invoice"), ("ORDER", Val.str ""), ("Order", Val.str "123")]
        ⟨[⟨"Order", "text"⟩]⟩
        [Rule.mk "Order" ["invoice"] none "FromRule" "" ["all"] true 0]
        false false false 0).1 "Order" = some "FromRule" ∧
    ("FromRule" : String) ≠ "123" := by
  refine ⟨rfl, by decide, by decide, by decide⟩

/-- C6 witness: when the first matching key holds the populated value, the
direct value wins even though a rule targeting the column matches. -/
theorem C6_direct_value_first_match_witness :
    ("Order" ∈ (Schema.mk [⟨"Order", "text"⟩]).columns.map ColumnSpec.name ∧
     (directScan [("body", Val.str "invoice"), ("Order", Val.str "123")] "Order" false
        (if false then get_synonyms "Order" else ["Order"])).2 = some (Val.str "123") ∧
     pyTruthy (Val.str "123") = true ∧
     pyStrip (pyStr (Val.str "123")) ≠ "") ∧
    lookupk (email_to_record [("body", Val.str "invoice"), ("Order", Val.str "123")]
        ⟨[⟨"Order", "text"⟩]⟩
        [Rule.mk "Order" ["invoice"] none "FromRule" "" ["all"] true 0]
        false false false 0).1 "Order" = some (pyStrip (pyStr (Val.str "123"))) :=
  ⟨⟨by decide, by decide, by decide, by decide⟩,
   C6_direct_value_first_match [("body", Val.str "invoice"), ("Order", Val.str "123")]
     ⟨[⟨"Order", "text"⟩]⟩
     [Rule.mk "Order" ["invoice"] none "FromRule" "" ["all"] true 0]
     false false false 0 "Order" (Val.str "123")
     (by decide) (by decide) (by decide) (by decide)⟩

-- C5 support ---------------------------------------------------------------

theorem groupStep_uniform (icn v : String)
    (hv : (v == "" || blankIdxVals.contains (pyLower v)) = false) (r : Record)
    (hr : pyStrip ((lookupk r icn).getD "") = v) (g : List Record) :
    groupStep icn [(v, g)] r = [(v, g ++ [r])] := by
  unfold groupStep
  simp only [hr, hv, Bool.false_eq_true, if_false, lookupk_cons, lookupk_nil,
    beq_self_eq_true, if_true, setk]

theorem groupStep_start (icn v : String)
    (hv : (v == "" || blankIdxVals.contains (pyLower v)) = false) (r : Record)
    (hr : pyStrip ((lookupk r icn).getD "") = v) :
    groupStep icn [] r = [(v, [r])] := by
  unfold groupStep
  simp only [hr, hv, Bool.false_eq_true, if_false, lookupk_nil]
  rfl

theorem groupByIndex_aux (icn v : String)
    (hv : (v == "" || blankIdxVals.contains (pyLower v)) = false) :
    ∀ (records : List Record), (∀ r ∈ records, pyStrip ((lookupk r icn).getD "") = v) →
    ∀ (g : List Record),
      records.foldl (groupStep icn) [(v, g)] = [(v, g ++ records)] := by
  intro records
  induction records with
  | nil => intro _ g; simp
  | cons r rest ih =>
    intro hall g
    rw [List.foldl_cons,
      groupStep_uniform icn v hv r (hall r (List.mem_cons_self r rest)) g,
      ih (fun r2 h2 => hall r2 (List.mem_cons_of_mem r h2)) (g ++ [r])]
    simp

theorem groupByIndex_uniform (records : List Record) (icn v : String)
    (hv : (v == "" || blankIdxVals.contains (pyLower v)) = false)
    (hall : ∀ r ∈ records, pyStrip ((lookupk r icn).getD "") = v)
    (hne : records ≠ []) :
    groupByIndex records icn = [(v, records)] := by
  rcases records with _ | ⟨r, rest⟩
  · exact absurd rfl hne
  · unfold groupByIndex
    rw [List.foldl_cons,
      groupStep_start icn v hv r (hall r (List.mem_cons_self r rest)),
      groupByIndex_aux icn v hv rest
        (fun r2 h2 => hall r2 (List.mem_cons_of_mem r h2)) [r]]
    simp

theorem mergeByIndex_single (records : List Record) (icn : String) (cols : List String)
    (v : String)
    (hv : (v == "" || blankIdxVals.contains (pyLower v)) = false)
    (hsent : v ≠ "_no_index")
    (hall : ∀ r ∈ records, pyStrip ((lookupk r icn).getD "") = v)
    (hlen : 2 ≤ records.length) :
    _merge_by_index records icn cols = [_merge_record_group records cols icn] := by
  unfold _merge_by_index
  rw [groupByIndex_uniform records icn v hv hall (by
    intro hx
    rw [hx] at hlen
    simp at hlen)]
  rw [List.foldl_cons, List.foldl_nil]
  have h1 : (v == "_no_index") = false := by
    simp only [beq_eq_false_iff_ne, ne_eq]
    exact hsent
  have h2 : (records.length == 1) = false := by
    simp only [beq_eq_false_iff_ne, ne_eq]
    omega
  simp [h1, h2]

theorem bestValueGo_mem (rs : List Record) (col : String) :
    ∀ (b : String) (n : Nat),
      bestValueGo rs col b n = b ∨
      bestValueGo rs col b n ∈ rs.map (fun r => pyStrip ((lookupk r col).getD "")) := by
  induction rs with
  | nil => intro b n; left; rfl
  | cons r rest ih =>
    intro b n
    unfold bestValueGo
    dsimp only
    split
    · rcases ih (pyStrip ((lookupk r col).getD "")) (pyStrip ((lookupk r col).getD "")).length
          with h | h
      · right
        rw [h, List.map_cons]
        exact List.mem_cons_self _ _
      · right
        rw [List.map_cons]
        exact List.mem_cons_of_mem _ h
    · rcases ih b n with h | h
      · left; exact h
      · right
        rw [List.map_cons]
        exact List.mem_cons_of_mem _ h

theorem bestValueGo_cons_eq (r : Record) (rs : List Record) (col b : String) (n : Nat) :
    bestValueGo (r :: rs) col b n =
      if pyStrip ((lookupk r col).getD "") ≠ "" &&
          (pyStrip ((lookupk r col).getD "")).length > n then
        bestValueGo rs col (pyStrip ((lookupk r col).getD ""))
          (pyStrip ((lookupk r col).getD "")).length
      else bestValueGo rs col b n := rfl

theorem bestValueGo_cons_pos (r : Record) (rs : List Record) (col b : String) (n : Nat)
    (h1 : pyStrip ((lookupk r col).getD "") ≠ "")
    (h2 : n < (pyStrip ((lookupk r col).getD "")).length) :
    bestValueGo (r :: rs) col b n =
      bestValueGo rs col (pyStrip ((lookupk r col).getD ""))
        (pyStrip ((lookupk r col).getD "")).length := by
  rw [bestValueGo_cons_eq, if_pos (by simp [h1, h2])]

theorem bestValueGo_cons_neg (r : Record) (rs : List Record) (col b : String) (n : Nat)
    (h : pyStrip ((lookupk r col).getD "") = "" ∨
      (pyStrip ((lookupk r col).getD "")).length ≤ n) :
    bestValueGo (r :: rs) col b n = bestValueGo rs col b n := by
  rw [bestValueGo_cons_eq, if_neg ?_]
  simp only [Bool.and_eq_true, decide_eq_true_eq, not_and, not_lt, ne_eq]
  intro hne
  rcases h with h1 | h1
  · exact absurd h1 hne
  · exact h1

theorem bestValueGo_ge (rs : List Record) (col : String) :
    ∀ (b : String) (n : Nat), n = b.length →
      b.length ≤ (bestValueGo rs col b n).length ∧
      ∀ r ∈ rs, (pyStrip ((lookupk r col).getD "")).length ≤
        (bestValueGo rs col b n).length := by
  induction rs with
  | nil =>
    intro b n hb
    exact ⟨Nat.le_refl _, fun r hr => absurd hr (List.not_mem_nil r)⟩
  | cons r rest ih =>
    intro b n hb
    by_cases hpos : pyStrip ((lookupk r col).getD "") ≠ "" ∧
        n < (pyStrip ((lookupk r col).getD "")).length
    · rw [bestValueGo_cons_pos r rest col b n hpos.1 hpos.2]
      obtain ⟨h1, h2⟩ := ih (pyStrip ((lookupk r col).getD ""))
        (pyStrip ((lookupk r col).getD "")).length rfl
      have hlt := hpos.2
      refine ⟨by omega, ?_⟩
      intro r2 hr2
      rcases List.mem_cons.mp hr2 with rfl | hr3
      · exact h1
      · exact h2 r2 hr3
    · have hneg : pyStrip ((lookupk r col).getD "") = "" ∨
          (pyStrip ((lookupk r col).getD "")).length ≤ n := by
        rcases not_and_or.mp hpos with h | h
        · left; simpa using h
        · right; omega
      rw [bestValueGo_cons_neg r rest col b n hneg]
      obtain ⟨h1, h2⟩ := ih b n hb
      refine ⟨h1, fun r2 hr2 => ?_⟩
      rcases List.mem_cons.mp hr2 with rfl | hr3
      · rcases hneg with h3 | h3
        · rw [h3]; simp
        · omega
      · exact h2 r2 hr3

theorem bestValueGo_stays_or_gt (rs : List Record) (col : String) :
    ∀ (b : String) (n : Nat),
      bestValueGo rs col b n = b ∨ n < (bestValueGo rs col b n).length := by
  induction rs with
  | nil => intro b n; left; rfl
  | cons r rest ih =>
    intro b n
    by_cases hpos : pyStrip ((lookupk r col).getD "") ≠ "" ∧
        n < (pyStrip ((lookupk r col).getD "")).length
    · rw [bestValueGo_cons_pos r rest col b n hpos.1 hpos.2]
      right
      have h1 := (bestValueGo_ge rest col (pyStrip ((lookupk r col).getD ""))
        (pyStrip ((lookupk r col).getD "")).length rfl).1
      have hlt := hpos.2
      omega
    · have hneg : pyStrip ((lookupk r col).getD "") = "" ∨
          (pyStrip ((lookupk r col).getD "")).length ≤ n := by
        rcases not_and_or.mp hpos with h | h
        · left; simpa using h
        · right; omega
      rw [bestValueGo_cons_neg r rest col b n hneg]
      exact ih b n

theorem bestValueGo_find (rs : List Record) (col : String) :
    ∀ (b : String) (n : Nat), n = b.length → bestValueGo rs col b n ≠ b →
      (rs.map (fun r => pyStrip ((lookupk r col).getD ""))).find?
          (fun u => u.length == (bestValueGo rs col b n).length) =
        some (bestValueGo rs col b n) := by
  induction rs with
  | nil => intro b n hb hne; exact absurd rfl hne
  | cons r rest ih =>
    intro b n hb hne
    rw [List.map_cons]
    by_cases hpos : pyStrip ((lookupk r col).getD "") ≠ "" ∧
        n < (pyStrip ((lookupk r col).getD "")).length
    · rw [bestValueGo_cons_pos r rest col b n hpos.1 hpos.2] at hne ⊢
      by_cases hwv : bestValueGo rest col (pyStrip ((lookupk r col).getD ""))
          (pyStrip ((lookupk r col).getD "")).length = pyStrip ((lookupk r col).getD "")
      · rw [hwv]
        rw [List.find?_cons_of_pos _ (by simp)]
      · have hgt : (pyStrip ((lookupk r col).getD "")).length <
            (bestValueGo rest col (pyStrip ((lookupk r col).getD ""))
              (pyStrip ((lookupk r col).getD "")).length).length := by
          rcases bestValueGo_stays_or_gt rest col (pyStrip ((lookupk r col).getD ""))
            (pyStrip ((lookupk r col).getD "")).length with h | h
          · exact absurd h hwv
          · exact h
        rw [List.find?_cons_of_neg _ (by
          simp only [beq_iff_eq, Bool.not_eq_true, decide_eq_false_iff_not]
          omega)]
        exact ih (pyStrip ((lookupk r col).getD ""))
          (pyStrip ((lookupk r col).getD "")).length rfl hwv
    · have hneg : pyStrip ((lookupk r col).getD "") = "" ∨
          (pyStrip ((lookupk r col).getD "")).length ≤ n := by
        rcases not_and_or.mp hpos with h | h
        · left; simpa using h
        · right; omega
      rw [bestValueGo_cons_neg r rest col b n hneg] at hne ⊢
      have hgtb : n < (bestValueGo rest col b n).length := by
        rcases bestValueGo_stays_or_gt rest col b n with h | h
        · exact absurd h hne
        · exact h
      have hvslen : (pyStrip ((lookupk r col).getD "")).length <
          (bestValueGo rest col b n).length := by
        rcases hneg with h3 | h3
        · have h0 : (pyStrip ((lookupk r col).getD "")).length = 0 := by rw [h3]; rfl
          omega
        · omega
      rw [List.find?_cons_of_neg _ (by
        simp only [beq_iff_eq, Bool.not_eq_true, decide_eq_false_iff_not]
        omega)]
      exact ih b n hb hne

theorem lookupk_map_apply (cols : List String) (f : String → String) (c : String)
    (hc : c ∈ cols) : lookupk (cols.map (fun col => (col, f col))) c = some (f c) := by
  induction cols with
  | nil => cases hc
  | cons x rest ih =>
    rw [List.map_cons, lookupk_cons]
    by_cases hx : (x == c) = true
    · have hxc : x = c := by simpa using hx
      rw [if_pos hx]
      rw [hxc]
    · rw [if_neg hx]
      refine ih ?_
      rcases List.mem_cons.mp hc with rfl | h
      · simp at hx
      · exact h

theorem sortByScore_mem (records : List Record) (r : Record) :
    r ∈ sortByScore records ↔ r ∈ records := by
  unfold sortByScore
  exact (List.perm_insertionSort _ records).mem_iff

/-- C5 (amended): merge completeness.  For a batch of at least two records
all sharing the same normalized, non-blank index value `v` (with `v` not
the internal sentinel `"_no_index"`, where the code files such records as
index-less and keeps them separate), `_merge_by_index` produces exactly
one record, the merge of the group; in that record every column of the
rectangle holds `bestValueGo` of the completeness-sorted group — a value
that is empty or one of the observed stripped values, whose length
dominates every observed value, and which (when non-empty) is the first
value of maximal length in completeness-sorted order; the index column
itself holds `v`. -/
theorem C5_merge_completeness (records : List Record) (icn : String) (cols : List String)
    (v : String)
    (hv : (v == "" || blankIdxVals.contains (pyLower v)) = false)
    (hsent : v ≠ "_no_index")
    (hicn : icn ∈ cols)
    (hall : ∀ r ∈ records, pyStrip ((lookupk r icn).getD "") = v)
    (hlen : 2 ≤ records.length) :
    _merge_by_index records icn cols = [_merge_record_group records cols icn] ∧
    (∀ col ∈ cols,
      lookupk (_merge_record_group records cols icn) col =
        some (bestValueGo (sortByScore records) col "" 0) ∧
      (bestValueGo (sortByScore records) col "" 0 = "" ∨
        bestValueGo (sortByScore records) col "" 0 ∈
          (sortByScore records).map (fun r => pyStrip ((lookupk r col).getD ""))) ∧
      (∀ r ∈ records, (pyStrip ((lookupk r col).getD "")).length ≤
        (bestValueGo (sortByScore records) col "" 0).length) ∧
      (bestValueGo (sortByScore records) col "" 0 ≠ "" →
        ((sortByScore records).map (fun r => pyStrip ((lookupk r col).getD ""))).find?
            (fun u => u.length == (bestValueGo (sortByScore records) col "" 0).length) =
          some (bestValueGo (sortByScore records) col "" 0))) ∧
    lookupk (_merge_record_group records cols icn) icn = some v := by
  have hvne : v ≠ "" := by
    intro hx
    rw [hx] at hv
    simp at hv
  -- the index-column best value is v
  have hwv : bestValueGo (sortByScore records) icn "" 0 = v := by
    have hmem := bestValueGo_mem (sortByScore records) icn "" 0
    have hge := bestValueGo_ge (sortByScore records) icn "" 0 rfl
    rcases records with _ | ⟨r0, rest⟩
    · simp at hlen
    · have hr0s : r0 ∈ sortByScore (r0 :: rest) := (sortByScore_mem _ r0).mpr
        (List.mem_cons_self r0 rest)
      have hval0 : pyStrip ((lookupk r0 icn).getD "") = v :=
        hall r0 (List.mem_cons_self r0 rest)
      have hvlen : v.length ≤ (bestValueGo (sortByScore (r0 :: rest)) icn "" 0).length := by
        have := hge.2 r0 hr0s
        rw [hval0] at this
        exact this
      rcases hmem with h | h
      · exfalso
        rw [h] at hvlen
        have : v.length = 0 := by
          have h0 : ("" : String).length = 0 := rfl
          omega
        exact hvne (by
          cases hv2 : v with
          | mk l =>
            cases l with
            | nil => rfl
            | cons a as2 =>
              rw [hv2] at this
              simp [String.length] at this)
      · rcases List.mem_map.mp h with ⟨r2, hr2, hval2⟩
        rw [← hval2]
        exact hall r2 ((sortByScore_mem _ r2).mp hr2)
  have hmrg : _merge_record_group records cols icn =
      cols.map (fun col => (col, bestValueGo (sortByScore records) col "" 0)) := by
    unfold _merge_record_group
    dsimp only
    rw [lookupk_map_apply cols _ icn hicn]
    rw [hwv]
    simp only [Option.getD_some]
    rw [if_pos hvne]
  refine ⟨mergeByIndex_single records icn cols v hv hsent hall hlen, ?_, ?_⟩
  · intro col hcol
    refine ⟨by rw [hmrg]; exact lookupk_map_apply cols _ col hcol, ?_, ?_, ?_⟩
    · exact bestValueGo_mem (sortByScore records) col "" 0 |>.imp id id
    · intro r hr
      exact (bestValueGo_ge (sortByScore records) col "" 0 rfl).2 r
        ((sortByScore_mem records r).mpr hr)
    · intro hne
      exact bestValueGo_find (sortByScore records) col "" 0 rfl hne
  · rw [hmrg, lookupk_map_apply cols _ icn hicn, hwv]

/-- C5 counterexample: two records sharing the normalized, non-blank index
value `"_no_index"` — which collides with the code's internal sentinel —
are kept as two separate records instead of being merged into one, so the
unrestricted claim fails. -/
theorem C5_sentinel_counterexample :
    (("_no_index" == "" || blankIdxVals.contains (pyLower "_no_index")) = false) ∧
    (_merge_by_index [[("Order", "_no_index"), ("A", "x")], [("Order", "_no_index"), ("B", "y")]]
        "Order" ["A", "B", "Order"]).length = 2 ∧ (2 : Nat) ≠ 1 := by
  refine ⟨by decide, by decide, by decide⟩

/-- C5 witness: two partial records sharing the index value `W1`. -/
theorem C5_merge_completeness_witness :
    ((("W1" == "" || blankIdxVals.contains (pyLower "W1")) = false) ∧
     ("W1" : String) ≠ "_no_index" ∧
     "Order" ∈ ["A", "B", "Order"] ∧
     (∀ r ∈ [[("Order", "W1"), ("A", "x")], [("Order", "W1"), ("B", "yy")]],
       pyStrip ((lookupk r "Order").getD "") = "W1") ∧
     2 ≤ ([[("Order", "W1"), ("A", "x")], [("Order", "W1"), ("B", "yy")]] : List Record).length) ∧
    (_merge_by_index [[("Order", "W1"), ("A", "x")], [("Order", "W1"), ("B", "yy")]]
        "Order" ["A", "B", "Order"] =
      [_merge_record_group [[("Order", "W1"), ("A", "x")], [("Order", "W1"), ("B", "yy")]]
        ["A", "B", "Order"] "Order"] ∧
     lookupk (_merge_record_group [[("Order", "W1"), ("A", "x")], [("Order", "W1"), ("B", "yy")]]
        ["A", "B", "Order"] "Order") "Order" = some "W1") :=
  ⟨⟨by decide, by decide, by decide, by decide, by decide⟩,
   (C5_merge_completeness [[("Order", "W1"), ("A", "x")], [("Order", "W1"), ("B", "yy")]]
      "Order" ["A", "B", "Order"] "W1" (by decide) (by decide) (by decide) (by decide)
      (by decide)).1,
   (C5_merge_completeness [[("Order", "W1"), ("A", "x")], [("Order", "W1"), ("B", "yy")]]
      "Order" ["A", "B", "Order"] "W1" (by decide) (by decide) (by decide) (by decide)
      (by decide)).2.2⟩

/-- C3 (amended): the `_confidence` scale is monotone exactly as listed
(direct 10, standard_field 9, rule 8, synonym_direct 7, smart_heading 6,
smart_fallback 3, unmatched 0), and every smart-search resolution carries a
confidence of at most 8 — not at most 7: the smart_date path reusing the
unit's own date field reaches 8. -/
theorem C3_confidence_scale_and_smart_bound :
    (conf_of "direct" true = 10 ∧ conf_of "standard_field" true = 9 ∧
     conf_of "rule" true = 8 ∧ conf_of "synonym_direct" true = 7 ∧
     conf_of "smart_heading" true = 6 ∧ conf_of "smart_fallback" true = 3 ∧
     ∀ s, conf_of s false = 0) ∧
    ∀ (ed : EmailData) (cn ty : String) (syn : Bool),
      (smart_search_column ed cn ty syn).2.confidence ≤ 8 := by
  refine ⟨⟨rfl, rfl, rfl, rfl, rfl, rfl, fun s => rfl⟩, ?_⟩
  intro ed cn ty syn
  exact smart_search_column_conf_le ed cn ty syn
